import Mathlib

/-! # SIP proxy relay engine (sip-proxy/main.go)

A shallow embedding of the relay engine of `main.go`: the UDP receive loop
`StartUDP`, the return-path worker `handleServerResponses`, and the TCP relay
`StartTCP`, followed by the properties proved about them.

Modelling conventions
* Sockets and `*Session` pointers are object identities (`Nat`).  A `*Session`
  is an index into the heap of allocated `Session` objects.
* Everything the operating system or the Go runtime decides (the bytes a read
  returns, whether a dial or a write fails, the value of `time.Now()`) is an
  explicit input of the iteration that consumes it.
* The calls the program issues on its sockets are recorded, in order, in
  history fields of `World`.
* `net.UDPAddr.String` belongs to the Go standard library; it is a parameter
  `addrString` of the model.
* `main` starts one receive goroutine (main.go:69), so datagrams are handled
  one after the other, each by one iteration of the loop of `StartUDP`.
  `Reachable` interleaves whole iterations of the receive loop and of the
  workers; each table access inside an iteration is under the table lock.
-/

namespace SipProxy

abbrev Byte := Nat

/-- Identity of a socket object (`net.Conn`, `*net.UDPConn`). -/
abbrev Conn := Nat

/-- The fields of `net.UDPAddr`. -/
structure UDPAddr where
  IP : List Nat
  Port : Nat
  Zone : String
deriving DecidableEq, Repr, Inhabited

/-- The struct `Session` (main.go:83-88); the mutex carries no data. -/
structure Session where
  ClientAddr : UDPAddr
  ServerConn : Conn
  LastActive : Nat
deriving DecidableEq, Repr, Inhabited

/-- The struct `SIPProxy` (main.go:91-95): `sessions` is `map[string]*Session`,
kept as an association list from key to session pointer. -/
structure SIPProxy where
  targetAddr : String
  sessions : List (String × Nat)
deriving DecidableEq, Repr

/-- The result pair `(n, err)` of a `Write` / `WriteTo` call. -/
structure WriteResult where
  n : Nat
  err : Bool
deriving DecidableEq, Repr

/-- Lines the program logs (the `log.Printf` call sites of the relay engine). -/
inductive LogLine where
  | udpReadError
  | received (n : Nat) (addr : String)
  | dialFailed
  | forwardFailed
  | responseForwardFailed
deriving DecidableEq, Repr

/-- The proxy together with the objects it allocated and the history of the
calls it issued. -/
structure World where
  proxy : SIPProxy
  /-- allocated `Session` objects; a `*Session` is an index -/
  heap : List Session
  /-- number of `net.DialUDP` calls -/
  dialCalls : Nat
  /-- endpoints returned by successful `net.DialUDP` calls, in order -/
  dialed : List Conn
  /-- the `ServerConn.Write` calls: endpoint, payload passed, result -/
  sent : List (Conn × List Byte × WriteResult)
  /-- sessions whose `handleServerResponses` goroutine is running -/
  workers : List Nat
  /-- endpoints on which `Close` was called -/
  closed : List Conn
  /-- the `listener.WriteTo` calls: destination, payload -/
  replies : List (UDPAddr × List Byte)
  log : List LogLine
deriving DecidableEq, Repr

/-! ## Go map operations on the session table -/

/-- Map lookup `v, ok := m[k]`. -/
def mapGet : List (String × Nat) → String → Option Nat
  | [], _ => none
  | (k', v) :: rest, k => if k' = k then some v else mapGet rest k

/-- Map assignment `m[k] = v`. -/
def mapSet : List (String × Nat) → String → Nat → List (String × Nat)
  | [], k, v => [(k, v)]
  | (k', v') :: rest, k, v =>
    if k' = k then (k, v) :: rest else (k', v') :: mapSet rest k v

/-- Map deletion `delete(m, k)`. -/
def mapDelete (m : List (String × Nat)) (k : String) : List (String × Nat) :=
  m.filter (fun e => decide (e.1 ≠ k))

/-! ## Buffers -/

/-- Size of every transfer buffer: `make([]byte, 8192)`. -/
def bufferSize : Nat := 8192

/-- A fresh buffer, `make([]byte, 8192)`. -/
def makeBuffer : List Byte := List.replicate bufferSize 0

/-- A read into `buffer` when the kernel has `incoming` to deliver: at most
`len(buffer)` bytes are copied to the front of the buffer; the call returns
the number of bytes copied. -/
def readInto (buffer incoming : List Byte) : List Byte × Nat :=
  let n := min incoming.length buffer.length
  (incoming.take n ++ buffer.drop n, n)

/-- The contract of `Write` on the `*net.UDPConn` that `net.DialUDP` returns
and `Session.ServerConn` holds (the contract of `io.Writer`), for a payload of
`len` bytes: the count is at most `len`, and a count below `len` comes with a
non-nil error. -/
def writeContract (res : WriteResult) (len : Nat) : Prop :=
  res.n ≤ len ∧ (res.n < len → res.err = true)

/-- Dereference `*p` of a session pointer. -/
def deref (heap : List Session) (p : Nat) : Session := heap.getD p default

/-- The `host:port` rendering of an IPv4 address, the form `net.UDPAddr.String`
produces; the worked examples instantiate `addrString` with it. -/
def hostPort (a : UDPAddr) : String :=
  ".".intercalate (a.IP.map toString) ++ ":" ++ toString a.Port

/-- The constructor `NewSIPProxy` (main.go:98-103), in a world with nothing allocated yet. -/
def NewSIPProxy (targetAddr : String) : World :=
  { proxy := { targetAddr := targetAddr, sessions := [] }
    heap := [], dialCalls := 0, dialed := [], sent := [], workers := []
    closed := [], replies := [], log := [] }

section Engine

variable (addrString : UDPAddr → String)

/-! ## The UDP receive loop, `StartUDP` (main.go:106-163) -/

/-- What the environment supplies to one iteration of the receive loop. -/
structure UdpInput where
  /-- the datagram the kernel delivers to `ReadFromUDP` -/
  datagram : List Byte
  addr : UDPAddr
  readErr : Bool
  /-- result of `net.DialUDP`, should it be called (`none`: error) -/
  dial : Option Conn
  /-- value of `time.Now()` at line 140 -/
  nowCreate : Nat
  /-- value of `time.Now()` at line 153 -/
  nowTouch : Nat
  /-- result of `session.ServerConn.Write` -/
  write : WriteResult
deriving DecidableEq, Repr

/-- Lines 125-127: `session, exists := p.sessions[sessionKey]` under the read lock. -/
def lookupSession (w : World) (sessionKey : String) : Option Nat :=
  mapGet w.proxy.sessions sessionKey

/-- Line 131: `net.DialUDP("udp", nil, targetAddr)`. -/
def dialUDP (w : World) (res : Option Conn) : World :=
  match res with
  | some c => { w with dialCalls := w.dialCalls + 1, dialed := w.dialed ++ [c] }
  | none => { w with dialCalls := w.dialCalls + 1 }

/-- Lines 137-141: `session = &Session{...}`; the new object gets the next
heap index. -/
def newSession (w : World) (addr : UDPAddr) (serverConn : Conn) (now : Nat) : World × Nat :=
  ({ w with heap := w.heap ++ [{ ClientAddr := addr, ServerConn := serverConn, LastActive := now }] },
   w.heap.length)

/-- Lines 143-145: `p.sessions[sessionKey] = session` under the write lock. -/
def publishSession (w : World) (sessionKey : String) (session : Nat) : World :=
  { w with proxy := { w.proxy with sessions := mapSet w.proxy.sessions sessionKey session } }

/-- Line 148: `go p.handleServerResponses(session, listener)`. -/
def spawnWorker (w : World) (session : Nat) : World :=
  { w with workers := w.workers ++ [session] }

/-- Lines 152-154 and 237-239: `session.LastActive = time.Now()`. -/
def touch (w : World) (session : Nat) (now : Nat) : World :=
  { w with heap := w.heap.set session { deref w.heap session with LastActive := now } }

/-- Lines 157-161: `_, err = session.ServerConn.Write(payload)`; the byte count
is discarded and only `err` selects the logged branch. -/
def forward (w : World) (session : Nat) (payload : List Byte) (res : WriteResult) : World :=
  let w := { w with sent := w.sent ++ [((deref w.heap session).ServerConn, payload, res)] }
  if res.err then { w with log := w.log ++ [LogLine.forwardFailed] } else w

/-- Lines 121-161: what the loop body does with a datagram of `n` bytes that
was read without error; `payload` is `buffer[:n]`. -/
def handleDatagram (w : World) (n : Nat) (payload : List Byte) (inp : UdpInput) : World :=
  let w := { w with log := w.log ++ [LogLine.received n (addrString inp.addr)] }
  let sessionKey := addrString inp.addr
  match lookupSession w sessionKey with
  | some session =>
    let w := touch w session inp.nowTouch
    forward w session payload inp.write
  | none =>
    let w := dialUDP w inp.dial
    match inp.dial with
    | none => { w with log := w.log ++ [LogLine.dialFailed] }
    | some serverConn =>
      let (w, session) := newSession w inp.addr serverConn inp.nowCreate
      let w := publishSession w sessionKey session
      let w := spawnWorker w session
      let w := touch w session inp.nowTouch
      forward w session payload inp.write

/-- One iteration of the `for` loop of `StartUDP` (lines 115-161). Returns the
new world and the buffer as the iteration leaves it. -/
def udpLoopBody (w : World) (buffer : List Byte) (inp : UdpInput) : World × List Byte :=
  let (buffer, n) := readInto buffer inp.datagram
  if inp.readErr then
    ({ w with log := w.log ++ [LogLine.udpReadError] }, buffer)
  else
    (handleDatagram addrString w n (buffer.take n) inp, buffer)

/-- The receive loop run over the inputs of its first iterations. -/
def StartUDPFrom (w : World) (buffer : List Byte) : List UdpInput → World × List Byte
  | [] => (w, buffer)
  | inp :: rest =>
    let r := udpLoopBody addrString w buffer inp
    StartUDPFrom r.1 r.2 rest

/-- The method `StartUDP` (lines 106-163). `resolved` is what
`net.ResolveUDPAddr` returns for the target (`none`: an error, on which
`log.Fatalf` ends the process before the loop). Line 112 allocates the buffer,
then the loop runs; the result is the world after the given iterations. -/
def StartUDP (w : World) (resolved : Option UDPAddr) (inputs : List UdpInput) : Option World :=
  match resolved with
  | none => none
  | some _ => some (StartUDPFrom addrString w makeBuffer inputs).1

/-! ## The return-path worker, `handleServerResponses` (main.go:221-247) -/

/-- What the environment supplies to one iteration of the worker loop. -/
structure WorkerInput where
  /-- the datagram the kernel delivers to `session.ServerConn.Read` -/
  data : List Byte
  readErr : Bool
  /-- value of `time.Now()` at line 238 -/
  now : Nat
  /-- result of `listener.WriteTo` -/
  writeTo : WriteResult
deriving DecidableEq, Repr

/-- Lines 227-233: the cleanup on a read error, then `return`. -/
def teardown (w : World) (session : Nat) : World :=
  let s := deref w.heap session
  let w := { w with proxy := { w.proxy with
                sessions := mapDelete w.proxy.sessions (addrString s.ClientAddr) } }
  let w := { w with closed := w.closed ++ [s.ServerConn] }
  { w with workers := w.workers.filter (fun p => decide (p ≠ session)) }

/-- One iteration of the `for` loop of `handleServerResponses` (lines 225-245).
The third component tells whether the goroutine is still running. -/
def workerLoopBody (w : World) (session : Nat) (buffer : List Byte) (inp : WorkerInput) :
    World × List Byte × Bool :=
  let (buffer, n) := readInto buffer inp.data
  if inp.readErr then
    (teardown addrString w session, buffer, false)
  else
    let w := touch w session inp.now
    let w := { w with replies := w.replies ++ [((deref w.heap session).ClientAddr, buffer.take n)] }
    let w := if inp.writeTo.err then { w with log := w.log ++ [LogLine.responseForwardFailed] } else w
    (w, buffer, true)

/-- The worker loop run over the inputs of its iterations, until the read
error that ends it or until the inputs are used up. -/
def handleServerResponsesFrom (w : World) (session : Nat) (buffer : List Byte) :
    List WorkerInput → World
  | [] => w
  | inp :: rest =>
    let r := workerLoopBody addrString w session buffer inp
    if r.2.2 then handleServerResponsesFrom r.1 session r.2.1 rest else r.1

/-- The method `handleServerResponses`: line 222 allocates the buffer, then the loop runs. -/
def handleServerResponses (w : World) (session : Nat) (inputs : List WorkerInput) : World :=
  handleServerResponsesFrom addrString w session makeBuffer inputs

/-! ## Interleaving of the receive loop and the workers -/

/-- One loop iteration of one of the engine goroutines: the receive loop, or
the worker of a session. The buffer is the one the goroutine holds. -/
inductive EngineEvent where
  | recv (buffer : List Byte) (inp : UdpInput)
  | worker (session : Nat) (buffer : List Byte) (inp : WorkerInput)
deriving DecidableEq, Repr

/-- The world after one loop iteration. Only a running worker can take a step. -/
def engineStep (w : World) : EngineEvent → World
  | EngineEvent.recv buffer inp => (udpLoopBody addrString w buffer inp).1
  | EngineEvent.worker session buffer inp =>
    if session ∈ w.workers then (workerLoopBody addrString w session buffer inp).1 else w

/-- The world after a sequence of loop iterations. -/
def engineRun (w : World) (events : List EngineEvent) : World :=
  events.foldl (engineStep addrString) w

/-- What the environment may present in world `w`: buffers have the size the
program allocated, and a successful dial returns an endpoint that no earlier
dial returned. -/
def Admissible (w : World) : EngineEvent → Prop
  | EngineEvent.recv buffer inp =>
    buffer.length = bufferSize ∧
    match inp.dial with
    | some c => c ∉ w.dialed
    | none => True
  | EngineEvent.worker _ buffer _ => buffer.length = bufferSize

/-- States the engine reaches from `NewSIPProxy` when the receive loop and the
running workers take turns. -/
inductive Reachable : World → Prop where
  | init (targetAddr : String) : Reachable (NewSIPProxy targetAddr)
  | step {w : World} (e : EngineEvent) :
      Reachable w → Admissible w e → Reachable (engineStep addrString w e)

end Engine

/-! ## The TCP relay, `StartTCP` (main.go:166-218) -/

/-- What the environment supplies to one iteration of a copy loop. -/
structure PumpInput where
  /-- the bytes the kernel has for this `Read` -/
  data : List Byte
  readErr : Bool
  /-- result of the `Write` that follows -/
  write : WriteResult
deriving DecidableEq, Repr

/-- The goroutines serving one accepted connection (lines 183-216). -/
structure TCPRelay where
  clientConn : Conn
  serverConn : Conn
  /-- the inner goroutine, client to server (lines 188-201), is running -/
  clientToServer : Bool
  /-- the outer goroutine, server to client (lines 183-216), is running -/
  serverToClient : Bool
  /-- buffer of the inner goroutine (line 189) -/
  upBuffer : List Byte
  /-- buffer of the outer goroutine (line 204) -/
  downBuffer : List Byte
  /-- connections on which `Close` was called -/
  closed : List Conn
  /-- the `serverConn.Write` calls: payload passed, result -/
  toServer : List (List Byte × WriteResult)
  /-- the `clientConn.Write` calls: payload passed, result -/
  toClient : List (List Byte × WriteResult)
deriving DecidableEq, Repr

/-- What one iteration of the accept loop leads to. -/
inductive AcceptOutcome where
  /-- the call to `Accept` failed: logged, `continue` -/
  | acceptError
  /-- the dial failed: logged, `clientConn.Close()`, `continue` -/
  | dialFailed (closedConn : Conn)
  /-- both goroutines of the relay were started -/
  | relay (r : TCPRelay)
deriving DecidableEq, Repr

/-- The relay of a freshly accepted connection `clientConn` with upstream
connection `serverConn`: both goroutines started, each with its own buffer,
nothing closed or written yet. -/
def newRelay (clientConn serverConn : Conn) : TCPRelay :=
  { clientConn := clientConn, serverConn := serverConn
    clientToServer := true, serverToClient := true
    upBuffer := makeBuffer, downBuffer := makeBuffer
    closed := [], toServer := [], toClient := [] }

/-- One iteration of the accept loop (lines 168-216), up to the `go` statements. -/
def acceptBody (accept dial : Option Conn) : AcceptOutcome :=
  match accept with
  | none => AcceptOutcome.acceptError
  | some clientConn =>
    match dial with
    | none => AcceptOutcome.dialFailed clientConn
    | some serverConn => AcceptOutcome.relay (newRelay clientConn serverConn)

/-- The accept loop of `StartTCP` over the results of its first iterations:
what `Accept` and `net.Dial` return in each. -/
def StartTCP (iterations : List (Option Conn × Option Conn)) : List AcceptOutcome :=
  iterations.map (fun it => acceptBody it.1 it.2)

/-- One iteration of the client-to-server loop (lines 190-200). When the
goroutine returns, nothing else runs: it has no deferred calls. -/
def clientToServerBody (r : TCPRelay) (inp : PumpInput) : TCPRelay :=
  if !r.clientToServer then r else
  let (buffer, n) := readInto r.upBuffer inp.data
  let r := { r with upBuffer := buffer }
  if inp.readErr then
    { r with clientToServer := false }
  else
    let r := { r with toServer := r.toServer ++ [(buffer.take n, inp.write)] }
    if inp.write.err then { r with clientToServer := false } else r

/-- The deferred calls of the outer goroutine (lines 184-185), in the order
they run: `serverConn.Close()`, then `clientConn.Close()`. -/
def runDeferred (r : TCPRelay) : TCPRelay :=
  { r with closed := r.closed ++ [r.serverConn, r.clientConn] }

/-- One iteration of the server-to-client loop (lines 205-215). When the
goroutine returns, its deferred calls run. -/
def serverToClientBody (r : TCPRelay) (inp : PumpInput) : TCPRelay :=
  if !r.serverToClient then r else
  let (buffer, n) := readInto r.downBuffer inp.data
  let r := { r with downBuffer := buffer }
  if inp.readErr then
    runDeferred { r with serverToClient := false }
  else
    let r := { r with toClient := r.toClient ++ [(buffer.take n, inp.write)] }
    if inp.write.err then runDeferred { r with serverToClient := false } else r

/-- A loop iteration of one of the two goroutines of a relay. -/
inductive PumpEvent where
  | up (inp : PumpInput)
  | down (inp : PumpInput)
deriving DecidableEq, Repr

/-- The relay after one loop iteration of one of its goroutines. -/
def relayStep (r : TCPRelay) : PumpEvent → TCPRelay
  | PumpEvent.up inp => clientToServerBody r inp
  | PumpEvent.down inp => serverToClientBody r inp

/-- The relay after a sequence of loop iterations. -/
def relayRun (r : TCPRelay) (events : List PumpEvent) : TCPRelay :=
  events.foldl relayStep r

/-- The bytes a sequence of `Write` calls passed to the connection. -/
def payloadBytes (calls : List (List Byte × WriteResult)) : List Byte :=
  (calls.map (fun c => c.1)).flatten

/-- The bytes a sequence of `Write` calls reported as written. -/
def acceptedBytes (calls : List (List Byte × WriteResult)) : List Byte :=
  (calls.map (fun c => c.1.take c.2.n)).flatten

/-! ## Data of the worked examples -/

/-- The client `203.0.113.5:40000`. -/
def exampleClient : UDPAddr := { IP := [203, 0, 113, 5], Port := 40000, Zone := "" }

/-- The resolved target address, `192.0.2.10:5060`. -/
def exampleTarget : UDPAddr := { IP := [192, 0, 2, 10], Port := 5060, Zone := "" }

/-- A second client, `198.51.100.9:5062`. -/
def otherClient : UDPAddr := { IP := [198, 51, 100, 9], Port := 5062, Zone := "" }

/-- A datagram from `addr` read without error and written in full; `dial` is
what `net.DialUDP` returns if the loop body calls it. -/
def datagramFrom (addr : UDPAddr) (payload : List Byte) (dial : Option Conn) : UdpInput :=
  { datagram := payload, addr := addr, readErr := false, dial := dial,
    nowCreate := 100, nowTouch := 101, write := { n := payload.length, err := false } }

/-- The proxy as `main` creates it. -/
def exampleProxy : World := NewSIPProxy "sip.example.net:5060"

/-- A first datagram whose write fails with an error after one byte. -/
def failedWriteDatagram : UdpInput :=
  { datagram := [73, 78, 86], addr := exampleClient, readErr := false, dial := some 7,
    nowCreate := 100, nowTouch := 101, write := { n := 1, err := true } }

/-! ## The invariant of the session table -/

/-- What holds of the session table, the heap and the workers in every
reachable world. -/
structure TableInvariant (addrString : UDPAddr → String) (w : World) : Prop where
  /-- no key occurs twice in the table -/
  keys_nodup : (w.proxy.sessions.map Prod.fst).Nodup
  /-- an entry points to an allocated session, filed under the key of its address -/
  key_eq : ∀ k p, (k, p) ∈ w.proxy.sessions →
    p < w.heap.length ∧ addrString (deref w.heap p).ClientAddr = k
  /-- two allocated sessions never hold the same endpoint -/
  conn_inj : ∀ p q, p < w.heap.length → q < w.heap.length →
    (deref w.heap p).ServerConn = (deref w.heap q).ServerConn → p = q
  /-- the endpoint of an allocated session came from a dial -/
  conn_dialed : ∀ p, p < w.heap.length → (deref w.heap p).ServerConn ∈ w.dialed
  /-- only dialed endpoints are closed -/
  closed_dialed : ∀ c, c ∈ w.closed → c ∈ w.dialed
  /-- the session of a running worker is the entry under its key -/
  worker_entry : ∀ p, p ∈ w.workers →
    (addrString (deref w.heap p).ClientAddr, p) ∈ w.proxy.sessions
  /-- the session of an entry has a running worker -/
  entry_worker : ∀ k p, (k, p) ∈ w.proxy.sessions → p ∈ w.workers
  /-- the endpoint of an entry is not closed -/
  entry_open : ∀ k p, (k, p) ∈ w.proxy.sessions → (deref w.heap p).ServerConn ∉ w.closed

/-- The first datagrams of two clients, each answered by a successful dial. -/
def twoClientsEvents : List EngineEvent :=
  [EngineEvent.recv makeBuffer (datagramFrom exampleClient [73, 78, 86] (some 7)),
   EngineEvent.recv makeBuffer (datagramFrom otherClient [79, 80] (some 8))]

/-- The proxy after the first datagrams of two clients. -/
def twoClientsWorld : World := engineRun hostPort exampleProxy twoClientsEvents

/-- A read on an upstream endpoint that fails. -/
def failedRead : WorkerInput :=
  { data := [], readErr := true, now := 200, writeTo := { n := 0, err := false } }

/-- The inputs of the client-to-server iterations among a sequence of events. -/
def upInputs : List PumpEvent → List PumpInput
  | [] => []
  | PumpEvent.up inp :: rest => inp :: upInputs rest
  | PumpEvent.down _ :: rest => upInputs rest

/-- The inputs of the server-to-client iterations among a sequence of events. -/
def downInputs : List PumpEvent → List PumpInput
  | [] => []
  | PumpEvent.up _ :: rest => downInputs rest
  | PumpEvent.down inp :: rest => inp :: downInputs rest

/-- A loop iteration in which `data` is read and written in full without error. -/
def cleanCopy (data : List Byte) : PumpInput :=
  { data := data, readErr := false, write := { n := data.length, err := false } }

/-- A read that returns an error or EOF. -/
def endOfStream : PumpInput :=
  { data := [], readErr := true, write := { n := 0, err := false } }

/-- The events of an example: two chunks from the client with one chunk from
the server in between, then the client closes. -/
def exampleTransfer : List PumpEvent :=
  [PumpEvent.up (cleanCopy [73, 78]), PumpEvent.down (cleanCopy [50, 48, 48]),
   PumpEvent.up (cleanCopy [86]), PumpEvent.up endOfStream]

/-! ## Buffers, heap and map: basic facts -/

theorem readInto_take (b inc : List Byte) :
    (readInto b inc).1.take (readInto b inc).2 = inc.take b.length := by
  simp only [readInto]
  rw [List.take_append_of_le_length (by simp)]
  rw [List.take_take]
  by_cases h : inc.length ≤ b.length
  · simp [Nat.min_eq_left h, List.take_of_length_le h]
  · have h2 : b.length ≤ inc.length := by omega
    simp [Nat.min_eq_right h2]

theorem readInto_length (b inc : List Byte) : (readInto b inc).1.length = b.length := by
  simp only [readInto, List.length_append, List.length_take, List.length_drop]
  omega

theorem makeBuffer_length : makeBuffer.length = bufferSize := by simp [makeBuffer]

theorem deref_append_new (heap : List Session) (s : Session) :
    deref (heap ++ [s]) heap.length = s := by
  simp [deref, List.getD_eq_getElem?_getD]

theorem deref_append_old (heap : List Session) (s : Session) (p : Nat) (h : p < heap.length) :
    deref (heap ++ [s]) p = deref heap p := by
  simp [deref, List.getD_eq_getElem?_getD, List.getElem?_append_left h]

theorem deref_set (heap : List Session) (p q : Nat) (x : Session) :
    deref (heap.set p x) q = if p = q ∧ p < heap.length then x else deref heap q := by
  simp only [deref, List.getD_eq_getElem?_getD, List.getElem?_set]
  by_cases hpq : p = q
  · subst hpq
    by_cases hp : p < heap.length
    · simp [hp]
    · simp [hp, List.getElem?_eq_none (Nat.le_of_not_lt hp)]
  · simp [hpq]

theorem mapGet_mapSet_self (m : List (String × Nat)) (k : String) (v : Nat) :
    mapGet (mapSet m k v) k = some v := by
  induction m with
  | nil => simp [mapSet, mapGet]
  | cons e rest ih =>
    obtain ⟨k', v'⟩ := e
    by_cases h : k' = k
    · simp [mapSet, mapGet, h]
    · simp [mapSet, mapGet, h, ih]

section
variable (addrString : UDPAddr → String)

theorem udpLoopBody_fst (w : World) (buffer : List Byte) (inp : UdpInput) :
    (udpLoopBody addrString w buffer inp).1 =
      if inp.readErr then { w with log := w.log ++ [LogLine.udpReadError] }
      else handleDatagram addrString w (min inp.datagram.length buffer.length)
        (inp.datagram.take buffer.length) inp := by
  have h := readInto_take buffer inp.datagram
  unfold udpLoopBody
  cases hr : inp.readErr
  · simp only [Bool.false_eq_true, if_false]
    rw [h]
    rfl
  · simp

theorem udpLoopBody_snd_length (w : World) (buffer : List Byte) (inp : UdpInput) :
    (udpLoopBody addrString w buffer inp).2.length = buffer.length := by
  have h := readInto_length buffer inp.datagram
  unfold udpLoopBody
  cases hr : inp.readErr <;> simpa using h

theorem handleDatagram_hit (w : World) (n : Nat) (payload : List Byte) (inp : UdpInput)
    (p : Nat) (h : lookupSession w (addrString inp.addr) = some p) :
    handleDatagram addrString w n payload inp =
      forward (touch { w with log := w.log ++ [LogLine.received n (addrString inp.addr)] }
        p inp.nowTouch) p payload inp.write := by
  have h2 : lookupSession { w with log := w.log ++ [LogLine.received n (addrString inp.addr)] }
      (addrString inp.addr) = some p := h
  simp only [handleDatagram, h2]

theorem handleDatagram_miss_fail (w : World) (n : Nat) (payload : List Byte) (inp : UdpInput)
    (h : lookupSession w (addrString inp.addr) = none) (hd : inp.dial = none) :
    handleDatagram addrString w n payload inp =
      { w with dialCalls := w.dialCalls + 1
               log := w.log ++ [LogLine.received n (addrString inp.addr), LogLine.dialFailed] } := by
  have h2 : lookupSession { w with log := w.log ++ [LogLine.received n (addrString inp.addr)] }
      (addrString inp.addr) = none := h
  simp only [handleDatagram, h2, hd, dialUDP]
  simp

theorem handleDatagram_miss_ok (w : World) (n : Nat) (payload : List Byte) (inp : UdpInput)
    (c : Conn) (h : lookupSession w (addrString inp.addr) = none) (hd : inp.dial = some c) :
    handleDatagram addrString w n payload inp =
      { proxy := { w.proxy with
                   sessions := mapSet w.proxy.sessions (addrString inp.addr) w.heap.length }
        heap := w.heap ++ [{ ClientAddr := inp.addr, ServerConn := c, LastActive := inp.nowTouch }]
        dialCalls := w.dialCalls + 1
        dialed := w.dialed ++ [c]
        sent := w.sent ++ [(c, payload, inp.write)]
        workers := w.workers ++ [w.heap.length]
        closed := w.closed
        replies := w.replies
        log := w.log ++ [LogLine.received n (addrString inp.addr)] ++
          (if inp.write.err then [LogLine.forwardFailed] else []) } := by
  have h2 : lookupSession { w with log := w.log ++ [LogLine.received n (addrString inp.addr)] }
      (addrString inp.addr) = none := h
  simp only [handleDatagram, h2, hd, dialUDP, newSession, publishSession, spawnWorker, touch,
    forward, deref_append_new, List.set_append_right, List.length_append, deref_set]
  cases inp.write.err <;> simp
end

section
variable (addrString : UDPAddr → String)

theorem touch_ServerConn (w : World) (p q now : Nat) :
    (deref (touch w p now).heap q).ServerConn = (deref w.heap q).ServerConn := by
  simp only [touch, deref_set]
  split
  · next h => rw [h.1]
  · rfl

theorem touch_ClientAddr (w : World) (p q now : Nat) :
    (deref (touch w p now).heap q).ClientAddr = (deref w.heap q).ClientAddr := by
  simp only [touch, deref_set]
  split
  · next h => rw [h.1]
  · rfl

theorem touch_heap_length (w : World) (p now : Nat) :
    (touch w p now).heap.length = w.heap.length := by
  simp [touch]

theorem handleDatagram_hit_fields (w : World) (n : Nat) (payload : List Byte) (inp : UdpInput)
    (p : Nat) (h : lookupSession w (addrString inp.addr) = some p) :
    let w' := handleDatagram addrString w n payload inp
    w'.proxy = w.proxy ∧ w'.heap = (touch w p inp.nowTouch).heap ∧
    w'.dialCalls = w.dialCalls ∧ w'.dialed = w.dialed ∧
    w'.sent = w.sent ++ [((deref w.heap p).ServerConn, payload, inp.write)] ∧
    w'.workers = w.workers ∧ w'.closed = w.closed ∧ w'.replies = w.replies ∧
    w'.log = w.log ++ [LogLine.received n (addrString inp.addr)] ++
      (if inp.write.err then [LogLine.forwardFailed] else []) := by
  intro w'
  have hw : w' = _ := handleDatagram_hit addrString w n payload inp p h
  have hc := touch_ServerConn { w with log := w.log ++ [LogLine.received n (addrString inp.addr)] }
    p p inp.nowTouch
  rw [hw]
  simp only [forward, hc]
  cases inp.write.err <;> simp [touch]

theorem StartUDPFrom_established (w : World) (buffer : List Byte) (inputs : List UdpInput)
    (p : Nat) (key : String)
    (hhit : lookupSession w key = some p)
    (hsame : ∀ i ∈ inputs, i.readErr = false ∧ addrString i.addr = key) :
    let w' := (StartUDPFrom addrString w buffer inputs).1
    w'.proxy = w.proxy ∧ w'.dialCalls = w.dialCalls ∧ w'.dialed = w.dialed ∧
    w'.workers = w.workers ∧ w'.closed = w.closed ∧
    w'.sent = w.sent ++ inputs.map
      (fun i => ((deref w.heap p).ServerConn, i.datagram.take buffer.length, i.write)) := by
  induction inputs generalizing w buffer with
  | nil => simp [StartUDPFrom]
  | cons inp rest ih =>
    have hin := hsame inp (List.mem_cons_self _ _)
    have hrest : ∀ i ∈ rest, i.readErr = false ∧ addrString i.addr = key :=
      fun i hi => hsame i (List.mem_cons_of_mem _ hi)
    have hk : lookupSession w (addrString inp.addr) = some p := by rw [hin.2]; exact hhit
    have hstep := handleDatagram_hit_fields addrString w (min inp.datagram.length buffer.length)
      (inp.datagram.take buffer.length) inp p hk
    have hfst := udpLoopBody_fst addrString w buffer inp
    rw [hin.1] at hfst
    simp only [Bool.false_eq_true, if_false] at hfst
    rw [← hfst] at hstep
    obtain ⟨h1, h2, h3, h4, h5, h6, h7, -, -⟩ := hstep
    have hhit2 : lookupSession (udpLoopBody addrString w buffer inp).1 key = some p := by
      simp only [lookupSession, h1]; exact hhit
    have ih2 := ih (udpLoopBody addrString w buffer inp).1 (udpLoopBody addrString w buffer inp).2
      hhit2 hrest
    simp only [StartUDPFrom]
    obtain ⟨g1, g2, g3, g4, g5, g6⟩ := ih2
    refine ⟨g1.trans h1, g2.trans h3, g3.trans h4, g4.trans h6, g5.trans h7, ?_⟩
    rw [g6, h5, h2, touch_ServerConn, udpLoopBody_snd_length]
    simp

/-- C1 (session reuse). Starting from a table with no entry for the key of a
client address, a non-empty run of datagrams read without error from that
address, the first dial succeeding with endpoint `c` and only receive-loop
iterations taking place: `net.DialUDP` is called exactly once, `c` is the only
endpoint added, and the `Write` calls issued are exactly one per datagram, all
on `c`, each with payload `buffer[:n]` (the datagram cut to the 8192-byte
buffer), in receipt order. -/
theorem StartUDP_session_reuse (w : World) (target : UDPAddr) (first : UdpInput)
    (rest : List UdpInput) (c : Conn) (key : String)
    (hmiss : lookupSession w key = none)
    (hsame : ∀ i ∈ first :: rest, i.readErr = false ∧ addrString i.addr = key)
    (hdial : first.dial = some c) :
    ∃ w2, StartUDP addrString w (some target) (first :: rest) = some w2 ∧
      w2.dialCalls = w.dialCalls + 1 ∧
      w2.dialed = w.dialed ++ [c] ∧
      w2.sent = w.sent ++ (first :: rest).map (fun i => (c, i.datagram.take bufferSize, i.write)) := by
  refine ⟨(StartUDPFrom addrString w makeBuffer (first :: rest)).1, rfl, ?_⟩
  have hin := hsame first (List.mem_cons_self _ _)
  have hrest : ∀ i ∈ rest, i.readErr = false ∧ addrString i.addr = key :=
    fun i hi => hsame i (List.mem_cons_of_mem _ hi)
  have hk : lookupSession w (addrString first.addr) = none := by rw [hin.2]; exact hmiss
  have hfst := udpLoopBody_fst addrString w makeBuffer first
  rw [hin.1] at hfst
  simp only [Bool.false_eq_true, if_false] at hfst
  rw [handleDatagram_miss_ok addrString w _ _ first c hk hdial] at hfst
  have hlen : (udpLoopBody addrString w makeBuffer first).2.length = bufferSize := by
    rw [udpLoopBody_snd_length]; simp [makeBuffer]
  have hhit : lookupSession (udpLoopBody addrString w makeBuffer first).1 key = some w.heap.length := by
    rw [hfst]; simp only [lookupSession]; rw [hin.2]; exact mapGet_mapSet_self _ _ _
  have ih := StartUDPFrom_established addrString (udpLoopBody addrString w makeBuffer first).1
    (udpLoopBody addrString w makeBuffer first).2 rest w.heap.length key hhit hrest
  obtain ⟨-, g2, g3, -, -, g6⟩ := ih
  have hm : makeBuffer.length = bufferSize := by simp [makeBuffer]
  simp only [StartUDPFrom]
  refine ⟨?_, ?_, ?_⟩
  · rw [g2, hfst]
  · rw [g3, hfst]
  · rw [g6, hlen]
    rw [hfst]
    simp only [deref_append_new, hm, List.map_cons, List.append_assoc, List.singleton_append]
end

/-- Witness of C1: two datagrams from `203.0.113.5:40000` on a fresh proxy. -/
theorem StartUDP_session_reuse_witness :
    lookupSession exampleProxy "203.0.113.5:40000" = none ∧
    ∃ w2, StartUDP hostPort exampleProxy (some exampleTarget)
        [datagramFrom exampleClient [73, 78, 86] (some 7),
         datagramFrom exampleClient [65, 67, 75] none] = some w2 ∧
      w2.dialCalls = 1 ∧ w2.dialed = [7] ∧
      w2.sent =
        [(7, [73, 78, 86], { n := 3, err := false }), (7, [65, 67, 75], { n := 3, err := false })] :=
  ⟨by decide,
   StartUDP_session_reuse hostPort exampleProxy exampleTarget
    (datagramFrom exampleClient [73, 78, 86] (some 7)) [datagramFrom exampleClient [65, 67, 75] none] 7
    "203.0.113.5:40000" (by decide) (by decide) (by decide)⟩

section
variable (addrString : UDPAddr → String)

theorem workerLoopBody_fst (w : World) (p : Nat) (buffer : List Byte) (inp : WorkerInput) :
    (workerLoopBody addrString w p buffer inp).1 =
      if inp.readErr then teardown addrString w p
      else
        { touch w p inp.now with
          replies := w.replies ++ [((deref w.heap p).ClientAddr, inp.data.take buffer.length)]
          log := w.log ++ (if inp.writeTo.err then [LogLine.responseForwardFailed] else []) } := by
  have h := readInto_take buffer inp.data
  have hc := touch_ClientAddr w p p inp.now
  unfold workerLoopBody
  cases hr : inp.readErr
  · simp only [Bool.false_eq_true, if_false]
    rw [h, hc]
    cases inp.writeTo.err <;> simp [touch]
  · simp

theorem workerLoopBody_running (w : World) (p : Nat) (buffer : List Byte) (inp : WorkerInput) :
    (workerLoopBody addrString w p buffer inp).2.2 = !inp.readErr := by
  unfold workerLoopBody
  cases hr : inp.readErr <;> simp

/-- The heap only grows, and the address and the endpoint of an allocated
session never change. -/
theorem engineStep_heap (w : World) (e : EngineEvent) :
    w.heap.length ≤ (engineStep addrString w e).heap.length ∧
    ∀ q, q < w.heap.length →
      (deref (engineStep addrString w e).heap q).ClientAddr = (deref w.heap q).ClientAddr ∧
      (deref (engineStep addrString w e).heap q).ServerConn = (deref w.heap q).ServerConn := by
  cases e with
  | recv buffer inp =>
    simp only [engineStep, udpLoopBody_fst]
    cases hr : inp.readErr
    · simp only [Bool.false_eq_true, if_false]
      cases hl : lookupSession w (addrString inp.addr) with
      | some p =>
        obtain ⟨-, h2, -⟩ := handleDatagram_hit_fields addrString w
          (min inp.datagram.length buffer.length) (inp.datagram.take buffer.length) inp p hl
        rw [h2]
        exact ⟨by rw [touch_heap_length], fun q _ => ⟨touch_ClientAddr _ _ _ _, touch_ServerConn _ _ _ _⟩⟩
      | none =>
        cases hd : inp.dial with
        | none =>
          rw [handleDatagram_miss_fail addrString w _ _ inp hl hd]
          exact ⟨le_refl _, fun q _ => ⟨rfl, rfl⟩⟩
        | some c =>
          rw [handleDatagram_miss_ok addrString w _ _ inp c hl hd]
          refine ⟨by simp, fun q hq => ?_⟩
          simp only [deref_append_old _ _ _ hq]
          exact ⟨trivial, trivial⟩
    · simp
  | worker p buffer inp =>
    simp only [engineStep]
    split
    · rw [workerLoopBody_fst]
      cases hr : inp.readErr
      · simp only [Bool.false_eq_true, if_false]
        exact ⟨by simp [touch], fun q _ => ⟨touch_ClientAddr _ _ _ _, touch_ServerConn _ _ _ _⟩⟩
      · simp [teardown]
    · exact ⟨le_refl _, fun q _ => ⟨rfl, rfl⟩⟩

theorem engineRun_heap (w : World) (events : List EngineEvent) :
    w.heap.length ≤ (engineRun addrString w events).heap.length ∧
    ∀ q, q < w.heap.length →
      (deref (engineRun addrString w events).heap q).ClientAddr = (deref w.heap q).ClientAddr ∧
      (deref (engineRun addrString w events).heap q).ServerConn = (deref w.heap q).ServerConn := by
  induction events generalizing w with
  | nil => exact ⟨le_refl _, fun q _ => ⟨rfl, rfl⟩⟩
  | cons e rest ih =>
    have h1 := engineStep_heap addrString w e
    have h2 := ih (engineStep addrString w e)
    simp only [engineRun, List.foldl_cons] at h2 ⊢
    refine ⟨le_trans h1.1 h2.1, fun q hq => ?_⟩
    have h3 := h2.2 q (lt_of_lt_of_le hq h1.1)
    have h4 := h1.2 q hq
    exact ⟨h3.1.trans h4.1, h3.2.trans h4.2⟩

/-- C2 (return routing). For every session and every read of the worker that
succeeds with `m <= 8192` bytes, the iteration issues exactly one
`listener.WriteTo`, with those bytes as payload and the `ClientAddr` stored in
the session as destination, and the worker keeps running. That stored address
is the source address of the datagram for which `StartUDP` created the
session, whatever loop iterations happened in between. -/
theorem handleServerResponses_return_routing (w : World) (session : Nat) (buffer : List Byte)
    (inp : WorkerInput)
    (hlen : buffer.length = bufferSize) (hok : inp.readErr = false)
    (hm : inp.data.length ≤ bufferSize) :
    (workerLoopBody addrString w session buffer inp).1.replies =
      w.replies ++ [((deref w.heap session).ClientAddr, inp.data)] ∧
    (workerLoopBody addrString w session buffer inp).2.2 = true ∧
    ∀ (w0 : World) (n : Nat) (payload : List Byte) (creating : UdpInput) (c : Conn)
      (events : List EngineEvent),
      lookupSession w0 (addrString creating.addr) = none → creating.dial = some c →
      session = w0.heap.length →
      w = engineRun addrString (handleDatagram addrString w0 n payload creating) events →
      (deref w.heap session).ClientAddr = creating.addr := by
  refine ⟨?_, ?_, ?_⟩
  · rw [workerLoopBody_fst, hok]
    simp only [Bool.false_eq_true, if_false]
    rw [hlen, List.take_of_length_le hm]
  · rw [workerLoopBody_running, hok]; rfl
  · intro w0 n payload creating c events hmiss hdial hs hw
    have h1 := engineRun_heap addrString (handleDatagram addrString w0 n payload creating) events
    rw [← hw] at h1
    have h2 := handleDatagram_miss_ok addrString w0 n payload creating c hmiss hdial
    have hq : session < (handleDatagram addrString w0 n payload creating).heap.length := by
      rw [h2, hs]; simp
    rw [(h1.2 session hq).1, h2, hs]
    simp only [deref_append_new]
end

/-- Witness of C2: the reply `[50, 48, 48]` read by the worker of the session
created for `203.0.113.5:40000` goes to that address. -/
theorem handleServerResponses_return_routing_witness :
    (workerLoopBody hostPort
        (handleDatagram hostPort exampleProxy 3 [73, 78, 86]
          (datagramFrom exampleClient [73, 78, 86] (some 7)))
        0 makeBuffer
        { data := [50, 48, 48], readErr := false, now := 102,
          writeTo := { n := 3, err := false } }).1.replies =
      [(exampleClient, [50, 48, 48])] :=
  (handleServerResponses_return_routing hostPort
    (handleDatagram hostPort exampleProxy 3 [73, 78, 86]
      (datagramFrom exampleClient [73, 78, 86] (some 7)))
    0 makeBuffer
    { data := [50, 48, 48], readErr := false, now := 102, writeTo := { n := 3, err := false } }
    (by simp [makeBuffer]) rfl (by decide)).1

section
variable (addrString : UDPAddr → String)

/-- C4 (dial failure is atomic). When a datagram arrives from an address with
no session and the dial fails, the iteration leaves the session table, the
heap, the workers, the upstream writes and the closed set exactly as they
were (one more dial call and two log lines are the only trace), and the next
datagram from that address calls `net.DialUDP` again. -/
theorem StartUDP_dial_failure_atomic (w : World) (buffer : List Byte) (inp : UdpInput)
    (hok : inp.readErr = false)
    (hmiss : lookupSession w (addrString inp.addr) = none)
    (hdial : inp.dial = none) :
    (udpLoopBody addrString w buffer inp).1.proxy = w.proxy ∧
    (udpLoopBody addrString w buffer inp).1.heap = w.heap ∧
    (udpLoopBody addrString w buffer inp).1.sent = w.sent ∧
    (udpLoopBody addrString w buffer inp).1.workers = w.workers ∧
    (udpLoopBody addrString w buffer inp).1.dialed = w.dialed ∧
    (udpLoopBody addrString w buffer inp).1.closed = w.closed ∧
    (udpLoopBody addrString w buffer inp).1.replies = w.replies ∧
    (udpLoopBody addrString w buffer inp).1.dialCalls = w.dialCalls + 1 ∧
    (udpLoopBody addrString w buffer inp).1.log =
      w.log ++ [LogLine.received (min inp.datagram.length buffer.length) (addrString inp.addr),
                LogLine.dialFailed] ∧
    ∀ (buffer2 : List Byte) (next : UdpInput),
      next.readErr = false → addrString next.addr = addrString inp.addr →
      (udpLoopBody addrString (udpLoopBody addrString w buffer inp).1 buffer2 next).1.dialCalls =
        w.dialCalls + 2 := by
  have h1 : (udpLoopBody addrString w buffer inp).1 = _ := udpLoopBody_fst addrString w buffer inp
  rw [hok] at h1
  simp only [Bool.false_eq_true, if_false] at h1
  rw [handleDatagram_miss_fail addrString w _ _ inp hmiss hdial] at h1
  rw [h1]
  refine ⟨rfl, rfl, rfl, rfl, rfl, rfl, rfl, rfl, rfl, ?_⟩
  intro buffer2 next hnok hkey
  rw [udpLoopBody_fst, hnok]
  simp only [Bool.false_eq_true, if_false]
  have hmiss2 : lookupSession
      { w with dialCalls := w.dialCalls + 1
               log := w.log ++ [LogLine.received (min inp.datagram.length buffer.length)
                 (addrString inp.addr), LogLine.dialFailed] }
      (addrString next.addr) = none := by
    rw [hkey]; exact hmiss
  cases hd : next.dial with
  | none => rw [handleDatagram_miss_fail addrString _ _ _ next hmiss2 hd]
  | some c => rw [handleDatagram_miss_ok addrString _ _ _ next c hmiss2 hd]

/-- An iteration whose write to the upstream endpoint returns an error logs the
forwarding failure and tears nothing down: nothing is closed, a session that
was in the table keeps its entry, worker, address and endpoint, and a session
created for this datagram stays published with its worker. -/
theorem udpLoopBody_write_error (w : World) (buffer : List Byte) (inp : UdpInput)
    (hok : inp.readErr = false)
    (hsession : (lookupSession w (addrString inp.addr)).isSome ∨ inp.dial.isSome)
    (herr : inp.write.err = true) :
    (udpLoopBody addrString w buffer inp).1.log =
      w.log ++ [LogLine.received (min inp.datagram.length buffer.length) (addrString inp.addr),
                LogLine.forwardFailed] ∧
    (udpLoopBody addrString w buffer inp).1.closed = w.closed ∧
    (∀ p, lookupSession w (addrString inp.addr) = some p →
      (udpLoopBody addrString w buffer inp).1.proxy = w.proxy ∧
      (udpLoopBody addrString w buffer inp).1.workers = w.workers ∧
      (deref (udpLoopBody addrString w buffer inp).1.heap p).ClientAddr = (deref w.heap p).ClientAddr ∧
      (deref (udpLoopBody addrString w buffer inp).1.heap p).ServerConn = (deref w.heap p).ServerConn) ∧
    (∀ c, lookupSession w (addrString inp.addr) = none → inp.dial = some c →
      lookupSession (udpLoopBody addrString w buffer inp).1 (addrString inp.addr) =
        some w.heap.length ∧
      (udpLoopBody addrString w buffer inp).1.workers = w.workers ++ [w.heap.length] ∧
      (deref (udpLoopBody addrString w buffer inp).1.heap w.heap.length).ClientAddr = inp.addr ∧
      (deref (udpLoopBody addrString w buffer inp).1.heap w.heap.length).ServerConn = c) ∧
    ∀ rest, StartUDPFrom addrString w buffer (inp :: rest) =
      StartUDPFrom addrString (udpLoopBody addrString w buffer inp).1
        (udpLoopBody addrString w buffer inp).2 rest := by
  have h1 : (udpLoopBody addrString w buffer inp).1 = _ := udpLoopBody_fst addrString w buffer inp
  rw [hok] at h1
  simp only [Bool.false_eq_true, if_false] at h1
  suffices h : ((udpLoopBody addrString w buffer inp).1.log =
      w.log ++ [LogLine.received (min inp.datagram.length buffer.length) (addrString inp.addr),
                LogLine.forwardFailed] ∧
    (udpLoopBody addrString w buffer inp).1.closed = w.closed ∧
    (∀ p, lookupSession w (addrString inp.addr) = some p →
      (udpLoopBody addrString w buffer inp).1.proxy = w.proxy ∧
      (udpLoopBody addrString w buffer inp).1.workers = w.workers ∧
      (deref (udpLoopBody addrString w buffer inp).1.heap p).ClientAddr = (deref w.heap p).ClientAddr ∧
      (deref (udpLoopBody addrString w buffer inp).1.heap p).ServerConn = (deref w.heap p).ServerConn) ∧
    (∀ c, lookupSession w (addrString inp.addr) = none → inp.dial = some c →
      lookupSession (udpLoopBody addrString w buffer inp).1 (addrString inp.addr) =
        some w.heap.length ∧
      (udpLoopBody addrString w buffer inp).1.workers = w.workers ++ [w.heap.length] ∧
      (deref (udpLoopBody addrString w buffer inp).1.heap w.heap.length).ClientAddr = inp.addr ∧
      (deref (udpLoopBody addrString w buffer inp).1.heap w.heap.length).ServerConn = c)) from
    ⟨h.1, h.2.1, h.2.2.1, h.2.2.2, fun _ => rfl⟩
  rw [h1]
  cases hl : lookupSession w (addrString inp.addr) with
  | some p =>
    have g1 := handleDatagram_hit_fields addrString w (min inp.datagram.length buffer.length)
      (inp.datagram.take buffer.length) inp p hl
    simp only [herr] at g1
    obtain ⟨a1, a2, -, -, -, a6, a7, -, a9⟩ := g1
    refine ⟨?_, a7, ?_, ?_⟩
    · rw [a9]; simp
    · intro q hq
      cases hq
      refine ⟨a1, a6, ?_, ?_⟩
      · rw [a2, touch_ClientAddr]
      · rw [a2, touch_ServerConn]
    · intro c hc; cases hc
  | none =>
    rw [hl] at hsession
    cases hd : inp.dial with
    | none => rw [hd] at hsession; simp at hsession
    | some c =>
      rw [handleDatagram_miss_ok addrString w _ _ inp c hl hd]
      refine ⟨?_, rfl, ?_, ?_⟩
      · simp [herr]
      · intro p hp; cases hp
      · intro c2 _ hc2
        cases hc2
        refine ⟨?_, rfl, ?_, ?_⟩
        · simp only [lookupSession]; rw [mapGet_mapSet_self]
        · simp only [deref_append_new]
        · simp only [deref_append_new]
end

section
/-- Witness of C4: the first datagram of `203.0.113.5:40000` with a failing dial. -/
theorem StartUDP_dial_failure_atomic_witness :
    (udpLoopBody hostPort exampleProxy makeBuffer
      (datagramFrom exampleClient [73, 78, 86] none)).1.proxy = exampleProxy.proxy :=
  (StartUDP_dial_failure_atomic hostPort exampleProxy makeBuffer
    (datagramFrom exampleClient [73, 78, 86] none) rfl (by decide) rfl).1

/-- C9 (a short send is a forwarding failure). The `Write` of the upstream
endpoint keeping its contract: for every datagram of `n` bytes read without
error for which a session exists or is dialed, if the write reports fewer than
`n` bytes written, the iteration takes the logged failure branch (the log ends
with the `Received` line and the forwarding failure); in every
forwarding-failure case, that is whenever the write returns an error, nothing
is closed, a session that was in the table keeps its entry, worker, address
and endpoint, and a session created for this datagram stays published with
its worker; and the loop goes on with the next iteration. -/
theorem StartUDP_short_write_is_failure (addrString : UDPAddr → String) (w : World)
    (buffer : List Byte) (inp : UdpInput)
    (hok : inp.readErr = false)
    (hsession : (lookupSession w (addrString inp.addr)).isSome ∨ inp.dial.isSome)
    (hcontract : writeContract inp.write (min inp.datagram.length buffer.length)) :
    (inp.write.n < min inp.datagram.length buffer.length →
      inp.write.err = true ∧
      (udpLoopBody addrString w buffer inp).1.log =
        w.log ++ [LogLine.received (min inp.datagram.length buffer.length) (addrString inp.addr),
                  LogLine.forwardFailed]) ∧
    (inp.write.err = true →
      (udpLoopBody addrString w buffer inp).1.log =
        w.log ++ [LogLine.received (min inp.datagram.length buffer.length) (addrString inp.addr),
                  LogLine.forwardFailed] ∧
      (udpLoopBody addrString w buffer inp).1.closed = w.closed ∧
      (∀ p, lookupSession w (addrString inp.addr) = some p →
        (udpLoopBody addrString w buffer inp).1.proxy = w.proxy ∧
        (udpLoopBody addrString w buffer inp).1.workers = w.workers ∧
        (deref (udpLoopBody addrString w buffer inp).1.heap p).ClientAddr =
          (deref w.heap p).ClientAddr ∧
        (deref (udpLoopBody addrString w buffer inp).1.heap p).ServerConn =
          (deref w.heap p).ServerConn) ∧
      (∀ c, lookupSession w (addrString inp.addr) = none → inp.dial = some c →
        lookupSession (udpLoopBody addrString w buffer inp).1 (addrString inp.addr) =
          some w.heap.length ∧
        (udpLoopBody addrString w buffer inp).1.workers = w.workers ++ [w.heap.length] ∧
        (deref (udpLoopBody addrString w buffer inp).1.heap w.heap.length).ClientAddr = inp.addr ∧
        (deref (udpLoopBody addrString w buffer inp).1.heap w.heap.length).ServerConn = c)) ∧
    ∀ rest, StartUDPFrom addrString w buffer (inp :: rest) =
      StartUDPFrom addrString (udpLoopBody addrString w buffer inp).1
        (udpLoopBody addrString w buffer inp).2 rest := by
  refine ⟨fun hshort => ?_, fun herr => ?_, fun _ => rfl⟩
  · have herr := hcontract.2 hshort
    exact ⟨herr, (udpLoopBody_write_error addrString w buffer inp hok hsession herr).1⟩
  · have h := udpLoopBody_write_error addrString w buffer inp hok hsession herr
    exact ⟨h.1, h.2.1, h.2.2.1, h.2.2.2.1⟩

/-- Witness of C9: the write of the first datagram of `203.0.113.5:40000`
reports one byte of three, with an error. -/
theorem StartUDP_short_write_is_failure_witness :
    failedWriteDatagram.write.n < min failedWriteDatagram.datagram.length makeBuffer.length ∧
    (udpLoopBody hostPort exampleProxy makeBuffer failedWriteDatagram).1.log =
      exampleProxy.log ++
        [LogLine.received (min failedWriteDatagram.datagram.length makeBuffer.length)
          (hostPort failedWriteDatagram.addr), LogLine.forwardFailed] :=
  have hshort : failedWriteDatagram.write.n <
      min failedWriteDatagram.datagram.length makeBuffer.length := by
    rw [makeBuffer_length]; decide
  ⟨hshort,
   ((StartUDP_short_write_is_failure hostPort exampleProxy makeBuffer failedWriteDatagram
      rfl (Or.inr rfl) ⟨Nat.le_of_lt hshort, fun _ => rfl⟩).1 hshort).2⟩
end

/-! ## The session table as a map -/

theorem mapGet_some_mem (m : List (String × Nat)) (k : String) (p : Nat)
    (h : mapGet m k = some p) : (k, p) ∈ m := by
  induction m with
  | nil => simp [mapGet] at h
  | cons e rest ih =>
    obtain ⟨k', v'⟩ := e
    by_cases hk : k' = k
    · simp only [mapGet, hk, if_true, Option.some.injEq] at h
      rw [hk, h]; exact List.mem_cons_self _ _
    · simp only [mapGet, hk, if_false] at h
      exact List.mem_cons_of_mem _ (ih h)

theorem mapGet_none_iff (m : List (String × Nat)) (k : String) :
    mapGet m k = none ↔ k ∉ m.map Prod.fst := by
  induction m with
  | nil => simp [mapGet]
  | cons e rest ih =>
    obtain ⟨k', v'⟩ := e
    by_cases hk : k' = k
    · simp [mapGet, hk]
    · simp only [mapGet, hk, if_false, List.map_cons, List.mem_cons, not_or]
      rw [ih]
      exact ⟨fun h => ⟨fun h2 => hk h2.symm, h⟩, fun h => h.2⟩

theorem mem_mapGet (m : List (String × Nat)) (k : String) (p : Nat)
    (hn : (m.map Prod.fst).Nodup) (h : (k, p) ∈ m) : mapGet m k = some p := by
  induction m with
  | nil => simp at h
  | cons e rest ih =>
    obtain ⟨k', v'⟩ := e
    simp only [List.map_cons, List.nodup_cons] at hn
    rcases List.mem_cons.mp h with heq | hmem
    · cases heq; simp [mapGet]
    · have hk : k' ≠ k := by
        intro hkk
        apply hn.1
        rw [hkk]
        exact List.mem_map_of_mem Prod.fst hmem
      simp only [mapGet, hk, if_false]
      exact ih hn.2 hmem

theorem keys_nodup_unique (m : List (String × Nat)) (k : String) (p q : Nat)
    (hn : (m.map Prod.fst).Nodup) (hp : (k, p) ∈ m) (hq : (k, q) ∈ m) : p = q := by
  have h1 := mem_mapGet m k p hn hp
  have h2 := mem_mapGet m k q hn hq
  rw [h1] at h2
  exact Option.some.inj h2

theorem mapSet_of_miss (m : List (String × Nat)) (k : String) (v : Nat)
    (h : mapGet m k = none) : mapSet m k v = m ++ [(k, v)] := by
  induction m with
  | nil => simp [mapSet]
  | cons e rest ih =>
    obtain ⟨k', v'⟩ := e
    by_cases hk : k' = k
    · simp [mapGet, hk] at h
    · simp only [mapGet, hk, if_false] at h
      simp [mapSet, hk, ih h]

theorem mem_mapDelete (m : List (String × Nat)) (k k' : String) (p : Nat) :
    (k', p) ∈ mapDelete m k ↔ (k', p) ∈ m ∧ k' ≠ k := by
  simp [mapDelete, List.mem_filter]

theorem mapDelete_keys_nodup (m : List (String × Nat)) (k : String)
    (hn : (m.map Prod.fst).Nodup) : ((mapDelete m k).map Prod.fst).Nodup := by
  apply List.Nodup.sublist _ hn
  exact List.Sublist.map _ (List.filter_sublist _)

theorem mapGet_mapDelete_self (m : List (String × Nat)) (k : String) :
    mapGet (mapDelete m k) k = none := by
  rw [mapGet_none_iff]
  intro h
  obtain ⟨e, he, hk⟩ := List.mem_map.mp h
  obtain ⟨k', p⟩ := e
  have := (mem_mapDelete m k k' p).mp he
  exact this.2 hk

theorem mapDelete_cons (k2 : String) (v2 : Nat) (rest : List (String × Nat)) (k : String) :
    mapDelete ((k2, v2) :: rest) k =
      if k2 = k then mapDelete rest k else (k2, v2) :: mapDelete rest k := by
  by_cases h : k2 = k <;> simp [mapDelete, List.filter_cons, h]

theorem mapGet_mapDelete_other (m : List (String × Nat)) (k k' : String) (hk : k' ≠ k) :
    mapGet (mapDelete m k) k' = mapGet m k' := by
  induction m with
  | nil => simp [mapDelete, mapGet]
  | cons e rest ih =>
    obtain ⟨k2, v2⟩ := e
    rw [mapDelete_cons]
    by_cases h2 : k2 = k
    · have h3 : k2 ≠ k' := by rw [h2]; exact fun h => hk h.symm
      simp only [h2, if_true, mapGet]
      rw [h2] at h3
      simp only [h3, if_false]
      exact ih
    · simp only [h2, if_false, mapGet]
      rw [ih]

section
variable (addrString : UDPAddr → String)

/-! ## The invariant is kept by every loop iteration -/

theorem TableInvariant_init (targetAddr : String) :
    TableInvariant addrString (NewSIPProxy targetAddr) := by
  constructor <;> simp [NewSIPProxy]

theorem TableInvariant_same (w w2 : World)
    (hs : w2.proxy.sessions = w.proxy.sessions) (hl : w2.heap.length = w.heap.length)
    (ha : ∀ q, (deref w2.heap q).ClientAddr = (deref w.heap q).ClientAddr)
    (hc : ∀ q, (deref w2.heap q).ServerConn = (deref w.heap q).ServerConn)
    (hd : w2.dialed = w.dialed) (hcl : w2.closed = w.closed) (hw : w2.workers = w.workers)
    (h : TableInvariant addrString w) : TableInvariant addrString w2 := by
  constructor
  · rw [hs]; exact h.keys_nodup
  · intro k p hm
    rw [hs] at hm
    rw [hl, ha]
    exact h.key_eq k p hm
  · intro p q hp hq he
    rw [hl] at hp hq
    rw [hc, hc] at he
    exact h.conn_inj p q hp hq he
  · intro p hp
    rw [hl] at hp
    rw [hc, hd]
    exact h.conn_dialed p hp
  · intro c hcc
    rw [hcl] at hcc
    rw [hd]
    exact h.closed_dialed c hcc
  · intro p hp
    rw [hw] at hp
    rw [hs, ha]
    exact h.worker_entry p hp
  · intro k p hm
    rw [hs] at hm
    rw [hw]
    exact h.entry_worker k p hm
  · intro k p hm
    rw [hs] at hm
    rw [hc, hcl]
    exact h.entry_open k p hm

theorem TableInvariant_create (w : World) (n : Nat) (payload : List Byte) (inp : UdpInput)
    (c : Conn) (hmiss : lookupSession w (addrString inp.addr) = none)
    (hdial : inp.dial = some c) (hfresh : c ∉ w.dialed)
    (h : TableInvariant addrString w) :
    TableInvariant addrString (handleDatagram addrString w n payload inp) := by
  rw [handleDatagram_miss_ok addrString w n payload inp c hmiss hdial]
  have hset := mapSet_of_miss w.proxy.sessions (addrString inp.addr) w.heap.length hmiss
  have hkey : addrString inp.addr ∉ w.proxy.sessions.map Prod.fst :=
    (mapGet_none_iff _ _).mp hmiss
  have hold : ∀ p, p < w.heap.length →
      deref (w.heap ++ [{ ClientAddr := inp.addr, ServerConn := c, LastActive := inp.nowTouch }]) p
        = deref w.heap p := fun p hp => deref_append_old _ _ p hp
  have hnew :
      deref (w.heap ++ [{ ClientAddr := inp.addr, ServerConn := c, LastActive := inp.nowTouch }])
          w.heap.length
        = { ClientAddr := inp.addr, ServerConn := c, LastActive := inp.nowTouch } :=
    deref_append_new _ _
  constructor
  · simp only [hset, List.map_append, List.map_cons, List.map_nil]
    rw [List.nodup_append]
    refine ⟨h.keys_nodup, List.nodup_singleton _, ?_⟩
    intro a ha hb
    rw [List.mem_singleton] at hb
    rw [hb] at ha
    exact hkey ha
  · intro k p hm
    simp only [hset, List.mem_append, List.mem_singleton, Prod.mk.injEq] at hm
    simp only [List.length_append, List.length_singleton]
    rcases hm with hm | ⟨hk, hp⟩
    · have := h.key_eq k p hm
      rw [hold p this.1]
      exact ⟨by omega, this.2⟩
    · rw [hp, hnew, hk]
      exact ⟨by omega, rfl⟩
  · intro p q hp hq he
    simp only [List.length_append, List.length_singleton] at hp hq
    by_cases hp2 : p < w.heap.length
    · by_cases hq2 : q < w.heap.length
      · rw [hold p hp2, hold q hq2] at he
        exact h.conn_inj p q hp2 hq2 he
      · have hq3 : q = w.heap.length := by omega
        rw [hold p hp2, hq3, hnew] at he
        have hd := h.conn_dialed p hp2
        rw [he] at hd
        exact absurd hd hfresh
    · have hp3 : p = w.heap.length := by omega
      by_cases hq2 : q < w.heap.length
      · rw [hold q hq2, hp3, hnew] at he
        have hd := h.conn_dialed q hq2
        rw [← he] at hd
        exact absurd hd hfresh
      · omega
  · intro p hp
    simp only [List.length_append, List.length_singleton] at hp
    simp only [List.mem_append, List.mem_singleton]
    by_cases hp2 : p < w.heap.length
    · rw [hold p hp2]; exact Or.inl (h.conn_dialed p hp2)
    · have hp3 : p = w.heap.length := by omega
      rw [hp3, hnew]; exact Or.inr rfl
  · intro x hx
    exact List.mem_append_left _ (h.closed_dialed x hx)
  · intro p hp
    simp only [List.mem_append, List.mem_singleton] at hp
    simp only [hset, List.mem_append, List.mem_singleton, Prod.mk.injEq]
    rcases hp with hp | hp
    · have hm := h.worker_entry p hp
      rw [hold p (h.key_eq _ p hm).1]
      exact Or.inl hm
    · rw [hp, hnew]; exact Or.inr ⟨rfl, rfl⟩
  · intro k p hm
    simp only [hset, List.mem_append, List.mem_singleton, Prod.mk.injEq] at hm
    simp only [List.mem_append, List.mem_singleton]
    rcases hm with hm | ⟨-, hp⟩
    · exact Or.inl (h.entry_worker k p hm)
    · exact Or.inr hp
  · intro k p hm
    simp only [hset, List.mem_append, List.mem_singleton, Prod.mk.injEq] at hm
    rcases hm with hm | ⟨-, hp⟩
    · rw [hold p (h.key_eq k p hm).1]
      exact h.entry_open k p hm
    · rw [hp, hnew]
      exact fun hc => hfresh (h.closed_dialed c hc)
end

section
variable (addrString : UDPAddr → String)

theorem TableInvariant_teardown (w : World) (session : Nat) (hrun : session ∈ w.workers)
    (h : TableInvariant addrString w) :
    TableInvariant addrString (teardown addrString w session) := by
  have hentry := h.worker_entry session hrun
  have hlt := (h.key_eq _ session hentry).1
  constructor
  · exact mapDelete_keys_nodup _ _ h.keys_nodup
  · intro k p hm
    exact h.key_eq k p ((mem_mapDelete _ _ _ _).mp hm).1
  · exact h.conn_inj
  · exact h.conn_dialed
  · intro c hc
    simp only [teardown, List.mem_append, List.mem_singleton] at hc
    rcases hc with hc | hc
    · exact h.closed_dialed c hc
    · rw [hc]; exact h.conn_dialed session hlt
  · intro p hp
    simp only [teardown, List.mem_filter, decide_eq_true_eq] at hp
    have hm := h.worker_entry p hp.1
    refine (mem_mapDelete _ _ _ _).mpr ⟨hm, ?_⟩
    intro hk
    apply hp.2
    have hm2 : (addrString (deref w.heap session).ClientAddr, p) ∈ w.proxy.sessions := by
      have hm3 := hm
      simp only [teardown] at hk
      rw [hk] at hm3
      exact hm3
    exact keys_nodup_unique _ _ _ _ h.keys_nodup hm2 hentry
  · intro k p hm
    have hm2 := (mem_mapDelete _ _ _ _).mp hm
    simp only [teardown, List.mem_filter, decide_eq_true_eq]
    refine ⟨h.entry_worker k p hm2.1, ?_⟩
    intro hp
    apply hm2.2
    rw [← (h.key_eq k p hm2.1).2, hp]
  · intro k p hm
    have hm2 := (mem_mapDelete _ _ _ _).mp hm
    simp only [teardown, List.mem_append, List.mem_singleton, not_or]
    refine ⟨h.entry_open k p hm2.1, ?_⟩
    intro he
    have hp := h.conn_inj p session (h.key_eq k p hm2.1).1 hlt he
    apply hm2.2
    rw [← (h.key_eq k p hm2.1).2, hp]

theorem TableInvariant_step (w : World) (e : EngineEvent) (hadm : Admissible w e)
    (h : TableInvariant addrString w) : TableInvariant addrString (engineStep addrString w e) := by
  cases e with
  | recv buffer inp =>
    simp only [engineStep, udpLoopBody_fst]
    cases hr : inp.readErr
    · simp only [Bool.false_eq_true, if_false]
      cases hl : lookupSession w (addrString inp.addr) with
      | some p =>
        obtain ⟨h1, h2, -, h4, -, h6, h7, -, -⟩ := handleDatagram_hit_fields addrString w
          (min inp.datagram.length buffer.length) (inp.datagram.take buffer.length) inp p hl
        refine TableInvariant_same addrString w _ (by rw [h1]) (by rw [h2, touch_heap_length])
          (fun q => by rw [h2, touch_ClientAddr]) (fun q => by rw [h2, touch_ServerConn])
          h4 h7 h6 h
      | none =>
        cases hd : inp.dial with
        | none =>
          rw [handleDatagram_miss_fail addrString w _ _ inp hl hd]
          exact TableInvariant_same addrString w _ rfl rfl (fun _ => rfl) (fun _ => rfl)
            rfl rfl rfl h
        | some c =>
          have hfresh : c ∉ w.dialed := by
            have := hadm.2
            rw [hd] at this
            exact this
          exact TableInvariant_create addrString w _ _ inp c hl hd hfresh h
    · simp only [if_true]
      exact TableInvariant_same addrString w _ rfl rfl (fun _ => rfl) (fun _ => rfl)
        rfl rfl rfl h
  | worker p buffer inp =>
    simp only [engineStep]
    split
    · next hrun =>
      rw [workerLoopBody_fst]
      cases hr : inp.readErr
      · simp only [Bool.false_eq_true, if_false]
        exact TableInvariant_same addrString w _ rfl (touch_heap_length w p inp.now)
          (fun q => touch_ClientAddr w p q inp.now) (fun q => touch_ServerConn w p q inp.now)
          rfl rfl rfl h
      · simp only [if_true]
        exact TableInvariant_teardown addrString w p hrun h
    · exact h

theorem Reachable_invariant (w : World) (h : Reachable addrString w) :
    TableInvariant addrString w := by
  induction h with
  | init targetAddr => exact TableInvariant_init addrString targetAddr
  | step e _ hadm ih => exact TableInvariant_step addrString _ e hadm ih
end

section
variable (addrString : UDPAddr → String)

theorem TableInvariant_isolated (w : World) (h : TableInvariant addrString w)
    (k1 k2 : String) (p1 p2 : Nat)
    (h1 : lookupSession w k1 = some p1) (h2 : lookupSession w k2 = some p2) (hne : k1 ≠ k2) :
    (deref w.heap p1).ServerConn ≠ (deref w.heap p2).ServerConn := by
  have m1 := mapGet_some_mem _ _ _ h1
  have m2 := mapGet_some_mem _ _ _ h2
  have e1 := h.key_eq k1 p1 m1
  have e2 := h.key_eq k2 p2 m2
  intro he
  have hp := h.conn_inj p1 p2 e1.1 e2.1 he
  apply hne
  rw [← e1.2, ← e2.2, hp]

/-- C7 (session isolation). In every world reachable from `NewSIPProxy` by
iterations of the receive loop and of the running workers (teardowns
included), each successful dial returning a fresh endpoint: no key occurs
twice in the session table, so a key has at most one session; every entry is
filed under the key of its session's `ClientAddr`; the sessions of two
distinct keys hold distinct upstream endpoints; and whatever a further
iteration of the receive loop writes for a datagram of one address goes to an
endpoint that is not the endpoint of any other key, before or after that
iteration. -/
theorem session_isolation (w : World) (h : Reachable addrString w) :
    (w.proxy.sessions.map Prod.fst).Nodup ∧
    (∀ k p q, (k, p) ∈ w.proxy.sessions → (k, q) ∈ w.proxy.sessions → p = q) ∧
    (∀ k p, (k, p) ∈ w.proxy.sessions → addrString (deref w.heap p).ClientAddr = k) ∧
    (∀ k1 k2 p1 p2, lookupSession w k1 = some p1 → lookupSession w k2 = some p2 → k1 ≠ k2 →
      (deref w.heap p1).ServerConn ≠ (deref w.heap p2).ServerConn) ∧
    ∀ (buffer : List Byte) (inp : UdpInput), Admissible w (EngineEvent.recv buffer inp) →
      ∃ written, (udpLoopBody addrString w buffer inp).1.sent = w.sent ++ written ∧
        ∀ x, x ∈ written → ∀ k p, k ≠ addrString inp.addr →
          (lookupSession w k = some p → (deref w.heap p).ServerConn ≠ x.1) ∧
          (lookupSession (udpLoopBody addrString w buffer inp).1 k = some p →
            (deref (udpLoopBody addrString w buffer inp).1.heap p).ServerConn ≠ x.1) := by
  have hinv := Reachable_invariant addrString w h
  refine ⟨hinv.keys_nodup, fun k p q hp hq => keys_nodup_unique _ k p q hinv.keys_nodup hp hq,
    fun k p hm => (hinv.key_eq k p hm).2, TableInvariant_isolated addrString w hinv, ?_⟩
  intro buffer inp hadm
  have hinv2 := TableInvariant_step addrString w (EngineEvent.recv buffer inp) hadm hinv
  simp only [engineStep] at hinv2
  revert hinv2
  rw [udpLoopBody_fst]
  cases hr : inp.readErr
  · simp only [Bool.false_eq_true, if_false]
    cases hl : lookupSession w (addrString inp.addr) with
    | some s =>
      obtain ⟨h1, h2, -, -, h5, -, -, -, -⟩ := handleDatagram_hit_fields addrString w
        (min inp.datagram.length buffer.length) (inp.datagram.take buffer.length) inp s hl
      intro hinv2
      refine ⟨_, h5, ?_⟩
      intro x hx k p hk
      rw [List.mem_singleton] at hx
      rw [hx]
      refine ⟨fun hp => TableInvariant_isolated addrString w hinv k _ p s hp hl hk, ?_⟩
      intro hp
      have hs2 : lookupSession (handleDatagram addrString w (min inp.datagram.length buffer.length)
          (inp.datagram.take buffer.length) inp) (addrString inp.addr) = some s := by
        simp only [lookupSession, h1]; exact hl
      have := TableInvariant_isolated addrString _ hinv2 k _ p s hp hs2 hk
      rw [h2, touch_ServerConn, touch_ServerConn] at this
      rw [h2, touch_ServerConn]
      exact this
    | none =>
      cases hd : inp.dial with
      | none =>
        rw [handleDatagram_miss_fail addrString w _ _ inp hl hd]
        intro _
        exact ⟨[], by simp, fun x hx => by simp at hx⟩
      | some c =>
        have hfresh : c ∉ w.dialed := by
          have := hadm.2
          rw [hd] at this
          exact this
        have hw := handleDatagram_miss_ok addrString w (min inp.datagram.length buffer.length)
          (inp.datagram.take buffer.length) inp c hl hd
        intro hinv2
        refine ⟨[(c, inp.datagram.take buffer.length, inp.write)], by rw [hw], ?_⟩
        intro x hx k p hk
        rw [List.mem_singleton] at hx
        rw [hx]
        constructor
        · intro hp he
          have hm := mapGet_some_mem _ _ _ hp
          have hd2 := hinv.conn_dialed p (hinv.key_eq k p hm).1
          rw [he] at hd2
          exact hfresh hd2
        · intro hp
          have hs2 : lookupSession (handleDatagram addrString w
              (min inp.datagram.length buffer.length)
              (inp.datagram.take buffer.length) inp) (addrString inp.addr) = some w.heap.length := by
            rw [hw]; simp only [lookupSession]; exact mapGet_mapSet_self _ _ _
          have := TableInvariant_isolated addrString _ hinv2 k _ p w.heap.length hp hs2 hk
          have hc : (deref (handleDatagram addrString w (min inp.datagram.length buffer.length)
              (inp.datagram.take buffer.length) inp).heap w.heap.length).ServerConn = c := by
            rw [hw]; simp only [deref_append_new]
          rw [hc] at this
          exact this
  · simp only [if_true]
    intro _
    exact ⟨[], by simp, fun x hx => by simp at hx⟩
end

section
variable (addrString : UDPAddr → String)

/-- C8 (failure containment). In every reachable world, for two distinct keys
`ka` and `kb` with sessions `pa` and `pb`: the worker of `pa` is running, and
when it meets a read error its teardown leaves the entry of `kb`, every
session object (so the endpoint of `pb`), the worker of `pb` and the open
status of the endpoint of `pb` as they were; it closes exactly the endpoint of
`pa`, and the table loses exactly the entry `(ka, pa)` and no other. -/
theorem failure_containment (w : World) (h : Reachable addrString w)
    (ka kb : String) (pa pb : Nat)
    (ha : lookupSession w ka = some pa) (hb : lookupSession w kb = some pb) (hne : ka ≠ kb)
    (buffer : List Byte) (inp : WorkerInput) (herr : inp.readErr = true) :
    pa ∈ w.workers ∧
    lookupSession (workerLoopBody addrString w pa buffer inp).1 kb = some pb ∧
    (workerLoopBody addrString w pa buffer inp).1.heap = w.heap ∧
    pb ∈ (workerLoopBody addrString w pa buffer inp).1.workers ∧
    (deref w.heap pb).ServerConn ∉ w.closed ∧
    (deref w.heap pb).ServerConn ∉ (workerLoopBody addrString w pa buffer inp).1.closed ∧
    (workerLoopBody addrString w pa buffer inp).1.closed =
      w.closed ++ [(deref w.heap pa).ServerConn] ∧
    lookupSession (workerLoopBody addrString w pa buffer inp).1 ka = none ∧
    ∀ k p, (k, p) ∈ (workerLoopBody addrString w pa buffer inp).1.proxy.sessions ↔
      ((k, p) ∈ w.proxy.sessions ∧ (k, p) ≠ (ka, pa)) := by
  have hinv := Reachable_invariant addrString w h
  have ma := mapGet_some_mem _ _ _ ha
  have mb := mapGet_some_mem _ _ _ hb
  have ea := hinv.key_eq ka pa ma
  have eb := hinv.key_eq kb pb mb
  have hrun := hinv.entry_worker ka pa ma
  have hpne : pb ≠ pa := by
    intro hp
    apply hne
    rw [← ea.2, ← eb.2, hp]
  rw [workerLoopBody_fst, herr]
  simp only [if_true]
  refine ⟨hrun, ?_, rfl, ?_, hinv.entry_open kb pb mb, ?_, rfl, ?_, ?_⟩
  · simp only [lookupSession, teardown, ea.2]
    rw [mapGet_mapDelete_other _ _ _ (fun hk => hne hk.symm)]
    exact hb
  · simp only [teardown, List.mem_filter, decide_eq_true_eq]
    exact ⟨hinv.entry_worker kb pb mb, hpne⟩
  · simp only [teardown, List.mem_append, List.mem_singleton, not_or]
    refine ⟨hinv.entry_open kb pb mb, ?_⟩
    intro he
    exact hpne (hinv.conn_inj pb pa eb.1 ea.1 he)
  · simp only [lookupSession, teardown, ea.2]
    exact mapGet_mapDelete_self _ _
  · intro k p
    simp only [teardown, ea.2]
    rw [mem_mapDelete]
    constructor
    · rintro ⟨hm, hk⟩
      exact ⟨hm, fun he => hk (Prod.mk.inj he).1⟩
    · rintro ⟨hm, hk⟩
      refine ⟨hm, fun he => hk ?_⟩
      rw [he] at hm
      rw [he, keys_nodup_unique _ ka p pa hinv.keys_nodup hm ma]

/-- C3 (cleanup on failure). In every reachable world, for a key `k` with a
published session `p`: the worker of `p` is running, and once it meets a read
error it ends, the table has no entry for `k` and the endpoint of `p` is
closed. The next datagram read from an address with key `k` calls
`net.DialUDP` again, and when that dial returns a fresh endpoint `c`, then `c`
is not the closed endpoint and the datagram is written to `c` and to nothing
else. -/
theorem cleanup_on_failure (w : World) (h : Reachable addrString w)
    (k : String) (p : Nat) (hs : lookupSession w k = some p)
    (buffer : List Byte) (inp : WorkerInput) (herr : inp.readErr = true) :
    p ∈ w.workers ∧
    (workerLoopBody addrString w p buffer inp).2.2 = false ∧
    p ∉ (workerLoopBody addrString w p buffer inp).1.workers ∧
    lookupSession (workerLoopBody addrString w p buffer inp).1 k = none ∧
    (deref w.heap p).ServerConn ∈ (workerLoopBody addrString w p buffer inp).1.closed ∧
    ∀ (buffer2 : List Byte) (next : UdpInput),
      next.readErr = false → addrString next.addr = k →
      (udpLoopBody addrString (workerLoopBody addrString w p buffer inp).1 buffer2 next).1.dialCalls =
        w.dialCalls + 1 ∧
      ∀ c, next.dial = some c → c ∉ w.dialed →
        c ≠ (deref w.heap p).ServerConn ∧
        (udpLoopBody addrString (workerLoopBody addrString w p buffer inp).1 buffer2 next).1.dialed =
          w.dialed ++ [c] ∧
        (udpLoopBody addrString (workerLoopBody addrString w p buffer inp).1 buffer2 next).1.sent =
          w.sent ++ [(c, next.datagram.take buffer2.length, next.write)] := by
  have hinv := Reachable_invariant addrString w h
  have hm := mapGet_some_mem _ _ _ hs
  have hk := hinv.key_eq k p hm
  have hrun := hinv.entry_worker k p hm
  have hgone : lookupSession (teardown addrString w p) k = none := by
    simp only [lookupSession, teardown, hk.2]
    exact mapGet_mapDelete_self _ _
  refine ⟨hrun, ?_, ?_, ?_, ?_, ?_⟩
  · rw [workerLoopBody_running, herr]; rfl
  · rw [workerLoopBody_fst, herr]
    simp [teardown]
  · rw [workerLoopBody_fst, herr]
    exact hgone
  · rw [workerLoopBody_fst, herr]
    simp [teardown]
  · intro buffer2 next hok hkey
    rw [workerLoopBody_fst, herr]
    simp only [if_true]
    rw [udpLoopBody_fst, hok]
    simp only [Bool.false_eq_true, if_false]
    have hmiss : lookupSession (teardown addrString w p) (addrString next.addr) = none := by
      rw [hkey]; exact hgone
    constructor
    · cases hd : next.dial with
      | none => rw [handleDatagram_miss_fail addrString _ _ _ next hmiss hd]; rfl
      | some c => rw [handleDatagram_miss_ok addrString _ _ _ next c hmiss hd]; rfl
    · intro c hd hfresh
      rw [handleDatagram_miss_ok addrString _ _ _ next c hmiss hd]
      refine ⟨?_, rfl, rfl⟩
      intro hc
      apply hfresh
      rw [hc]
      exact hinv.conn_dialed p hk.1
end


theorem twoClientsWorld_reachable : Reachable hostPort twoClientsWorld :=
  Reachable.step (EngineEvent.recv makeBuffer (datagramFrom otherClient [79, 80] (some 8)))
    (Reachable.step (EngineEvent.recv makeBuffer (datagramFrom exampleClient [73, 78, 86] (some 7)))
      (Reachable.init "sip.example.net:5060")
      ⟨makeBuffer_length, by show (7 : Nat) ∉ exampleProxy.dialed; decide⟩)
    ⟨makeBuffer_length, by
      show (8 : Nat) ∉ (engineStep hostPort exampleProxy
        (EngineEvent.recv makeBuffer (datagramFrom exampleClient [73, 78, 86] (some 7)))).dialed
      decide⟩

/-- Witness of C7: the proxy after the first datagrams of two clients. -/
theorem session_isolation_witness :
    (twoClientsWorld.proxy.sessions.map Prod.fst).Nodup :=
  (session_isolation hostPort twoClientsWorld twoClientsWorld_reachable).1

/-- Witness of C8: the upstream endpoint of `203.0.113.5:40000` fails while
`198.51.100.9:5062` has a session. -/
theorem failure_containment_witness :
    lookupSession twoClientsWorld "203.0.113.5:40000" = some 0 ∧
    lookupSession twoClientsWorld "198.51.100.9:5062" = some 1 ∧
    lookupSession (workerLoopBody hostPort twoClientsWorld 0 makeBuffer failedRead).1
      "198.51.100.9:5062" = some 1 :=
  ⟨by decide, by decide,
   (failure_containment hostPort twoClientsWorld twoClientsWorld_reachable
    "203.0.113.5:40000" "198.51.100.9:5062" 0 1 (by decide) (by decide) (by decide)
    makeBuffer failedRead rfl).2.1⟩

/-- Witness of C3: the upstream endpoint of `203.0.113.5:40000` fails. -/
theorem cleanup_on_failure_witness :
    lookupSession twoClientsWorld "203.0.113.5:40000" = some 0 ∧
    lookupSession (workerLoopBody hostPort twoClientsWorld 0 makeBuffer failedRead).1
      "203.0.113.5:40000" = none :=
  ⟨by decide,
   (cleanup_on_failure hostPort twoClientsWorld twoClientsWorld_reachable
    "203.0.113.5:40000" 0 (by decide) makeBuffer failedRead rfl).2.2.2.1⟩





/-! ## The TCP relay -/

theorem clientToServerBody_running (r : TCPRelay) (inp : PumpInput)
    (hrun : r.clientToServer = true) :
    clientToServerBody r inp =
      if inp.readErr then
        { r with upBuffer := (readInto r.upBuffer inp.data).1, clientToServer := false }
      else
        { r with upBuffer := (readInto r.upBuffer inp.data).1
                 toServer := r.toServer ++ [(inp.data.take r.upBuffer.length, inp.write)]
                 clientToServer := !inp.write.err } := by
  have h := readInto_take r.upBuffer inp.data
  unfold clientToServerBody
  simp only [hrun, Bool.not_true, Bool.false_eq_true, if_false]
  cases hr : inp.readErr
  · simp only [Bool.false_eq_true, if_false]
    rw [h]
    cases hw : inp.write.err <;> simp [hrun]
  · simp

theorem serverToClientBody_running (r : TCPRelay) (inp : PumpInput)
    (hrun : r.serverToClient = true) :
    serverToClientBody r inp =
      if inp.readErr then
        { r with downBuffer := (readInto r.downBuffer inp.data).1, serverToClient := false
                 closed := r.closed ++ [r.serverConn, r.clientConn] }
      else if inp.write.err then
        { r with downBuffer := (readInto r.downBuffer inp.data).1
                 toClient := r.toClient ++ [(inp.data.take r.downBuffer.length, inp.write)]
                 serverToClient := false
                 closed := r.closed ++ [r.serverConn, r.clientConn] }
      else
        { r with downBuffer := (readInto r.downBuffer inp.data).1
                 toClient := r.toClient ++ [(inp.data.take r.downBuffer.length, inp.write)] } := by
  have h := readInto_take r.downBuffer inp.data
  unfold serverToClientBody
  simp only [hrun, Bool.not_true, Bool.false_eq_true, if_false]
  cases hr : inp.readErr
  · simp only [Bool.false_eq_true, if_false]
    rw [h]
    cases hw : inp.write.err <;> simp [runDeferred]
  · simp [runDeferred]

theorem clientToServerBody_stopped (r : TCPRelay) (inp : PumpInput)
    (hrun : r.clientToServer = false) : clientToServerBody r inp = r := by
  simp [clientToServerBody, hrun]

theorem serverToClientBody_stopped (r : TCPRelay) (inp : PumpInput)
    (hrun : r.serverToClient = false) : serverToClientBody r inp = r := by
  simp [serverToClientBody, hrun]

/-- The client-to-server goroutine never calls `Close` and never touches the
state of the other goroutine. -/
theorem clientToServerBody_frame (r : TCPRelay) (inp : PumpInput) :
    (clientToServerBody r inp).closed = r.closed ∧
    (clientToServerBody r inp).serverToClient = r.serverToClient ∧
    (clientToServerBody r inp).downBuffer = r.downBuffer ∧
    (clientToServerBody r inp).toClient = r.toClient ∧
    (clientToServerBody r inp).clientConn = r.clientConn ∧
    (clientToServerBody r inp).serverConn = r.serverConn := by
  cases hrun : r.clientToServer
  · rw [clientToServerBody_stopped r inp hrun]; simp
  · rw [clientToServerBody_running r inp hrun]
    cases inp.readErr <;> simp

/-- The server-to-client goroutine never touches the state of the other
goroutine. -/
theorem serverToClientBody_frame (r : TCPRelay) (inp : PumpInput) :
    (serverToClientBody r inp).clientToServer = r.clientToServer ∧
    (serverToClientBody r inp).upBuffer = r.upBuffer ∧
    (serverToClientBody r inp).toServer = r.toServer ∧
    (serverToClientBody r inp).clientConn = r.clientConn ∧
    (serverToClientBody r inp).serverConn = r.serverConn := by
  cases hrun : r.serverToClient
  · rw [serverToClientBody_stopped r inp hrun]; simp
  · rw [serverToClientBody_running r inp hrun]
    cases inp.readErr <;> cases inp.write.err <;> simp

theorem relayRun_cons (r : TCPRelay) (e : PumpEvent) (rest : List PumpEvent) :
    relayRun r (e :: rest) = relayRun (relayStep r e) rest := rfl

theorem relayRun_no_up (events : List PumpEvent) (r : TCPRelay) (h : upInputs events = []) :
    (relayRun r events).toServer = r.toServer ∧
    (relayRun r events).clientToServer = r.clientToServer := by
  induction events generalizing r with
  | nil => exact ⟨rfl, rfl⟩
  | cons e rest ih =>
    cases e with
    | up inp => simp [upInputs] at h
    | down inp =>
      simp only [upInputs] at h
      rw [relayRun_cons]
      have h1 := ih (relayStep r (PumpEvent.down inp)) h
      have h2 := serverToClientBody_frame r inp
      simp only [relayStep] at h1 ⊢
      exact ⟨h1.1.trans h2.2.2.1, h1.2.trans h2.1⟩

theorem relayRun_no_down (events : List PumpEvent) (r : TCPRelay) (h : downInputs events = []) :
    (relayRun r events).toClient = r.toClient ∧
    (relayRun r events).serverToClient = r.serverToClient ∧
    (relayRun r events).closed = r.closed := by
  induction events generalizing r with
  | nil => exact ⟨rfl, rfl, rfl⟩
  | cons e rest ih =>
    cases e with
    | down inp => simp [downInputs] at h
    | up inp =>
      simp only [downInputs] at h
      rw [relayRun_cons]
      have h1 := ih (relayStep r (PumpEvent.up inp)) h
      have h2 := clientToServerBody_frame r inp
      simp only [relayStep] at h1 ⊢
      exact ⟨h1.1.trans h2.2.2.2.1, h1.2.1.trans h2.2.1, h1.2.2.trans h2.1⟩

theorem relayRun_up_copy (events : List PumpEvent) (r : TCPRelay)
    (chunks : List PumpInput) (last : PumpInput)
    (hrun : r.clientToServer = true) (hbuf : r.upBuffer.length = bufferSize)
    (hup : upInputs events = chunks ++ [last])
    (hgood : ∀ i ∈ chunks, i.readErr = false ∧ i.data.length ≤ bufferSize ∧ i.write.err = false)
    (hlast : last.readErr = true) :
    (relayRun r events).toServer = r.toServer ++ chunks.map (fun i => (i.data, i.write)) ∧
    (relayRun r events).clientToServer = false := by
  induction events generalizing r chunks with
  | nil => simp [upInputs] at hup
  | cons e rest ih =>
    rw [relayRun_cons]
    cases e with
    | down inp =>
      simp only [upInputs] at hup
      have h2 := serverToClientBody_frame r inp
      have h1 := ih (relayStep r (PumpEvent.down inp)) chunks
        (by simp only [relayStep]; rw [h2.1]; exact hrun)
        (by simp only [relayStep]; rw [h2.2.1]; exact hbuf) hup hgood
      simp only [relayStep] at h1 ⊢
      rw [h2.2.2.1] at h1
      exact h1
    | up inp =>
      simp only [upInputs] at hup
      simp only [relayStep]
      cases chunks with
      | nil =>
        simp only [List.nil_append, List.cons.injEq] at hup
        have h1 := relayRun_no_up rest (clientToServerBody r inp) hup.2
        rw [clientToServerBody_running r inp hrun, hup.1, hlast] at h1
        rw [clientToServerBody_running r inp hrun, hup.1, hlast]
        simpa using h1
      | cons c cs =>
        simp only [List.cons_append, List.cons.injEq] at hup
        obtain ⟨hi, hrest⟩ := hup
        subst hi
        have hc := hgood inp (List.mem_cons_self _ _)
        have hcs : ∀ i ∈ cs, i.readErr = false ∧ i.data.length ≤ bufferSize ∧ i.write.err = false :=
          fun i hi => hgood i (List.mem_cons_of_mem _ hi)
        have hstep := clientToServerBody_running r inp hrun
        rw [hc.1, hc.2.2, hbuf, List.take_of_length_le hc.2.1] at hstep
        simp only [Bool.false_eq_true, if_false, Bool.not_false] at hstep
        have h1 := ih (clientToServerBody r inp) cs (by rw [hstep])
          (by rw [hstep]; simp only [readInto_length]; exact hbuf) hrest hcs
        rw [hstep] at h1 ⊢
        simpa using h1

theorem relayRun_down_copy (events : List PumpEvent) (r : TCPRelay)
    (chunks : List PumpInput) (last : PumpInput)
    (hrun : r.serverToClient = true) (hbuf : r.downBuffer.length = bufferSize)
    (hdown : downInputs events = chunks ++ [last])
    (hgood : ∀ i ∈ chunks, i.readErr = false ∧ i.data.length ≤ bufferSize ∧ i.write.err = false)
    (hlast : last.readErr = true) :
    (relayRun r events).toClient = r.toClient ++ chunks.map (fun i => (i.data, i.write)) ∧
    (relayRun r events).serverToClient = false ∧
    (relayRun r events).closed = r.closed ++ [r.serverConn, r.clientConn] := by
  induction events generalizing r chunks with
  | nil => simp [downInputs] at hdown
  | cons e rest ih =>
    rw [relayRun_cons]
    cases e with
    | up inp =>
      simp only [downInputs] at hdown
      have h2 := clientToServerBody_frame r inp
      have h1 := ih (relayStep r (PumpEvent.up inp)) chunks
        (by simp only [relayStep]; rw [h2.2.1]; exact hrun)
        (by simp only [relayStep]; rw [h2.2.2.1]; exact hbuf) hdown hgood
      simp only [relayStep] at h1 ⊢
      rw [h2.2.2.2.1, h2.1, h2.2.2.2.2.1, h2.2.2.2.2.2] at h1
      exact h1
    | down inp =>
      simp only [downInputs] at hdown
      simp only [relayStep]
      cases chunks with
      | nil =>
        simp only [List.nil_append, List.cons.injEq] at hdown
        have h1 := relayRun_no_down rest (serverToClientBody r inp) hdown.2
        rw [serverToClientBody_running r inp hrun, hdown.1, hlast] at h1
        rw [serverToClientBody_running r inp hrun, hdown.1, hlast]
        simpa using h1
      | cons c cs =>
        simp only [List.cons_append, List.cons.injEq] at hdown
        obtain ⟨hi, hrest⟩ := hdown
        subst hi
        have hc := hgood inp (List.mem_cons_self _ _)
        have hcs : ∀ i ∈ cs, i.readErr = false ∧ i.data.length ≤ bufferSize ∧ i.write.err = false :=
          fun i hi => hgood i (List.mem_cons_of_mem _ hi)
        have hstep := serverToClientBody_running r inp hrun
        rw [hc.1, hc.2.2, hbuf, List.take_of_length_le hc.2.1] at hstep
        simp only [Bool.false_eq_true, if_false] at hstep
        have h1 := ih (serverToClientBody r inp) cs (by rw [hstep]; exact hrun)
          (by rw [hstep]; simp only [readInto_length]; exact hbuf) hrest hcs
        rw [hstep] at h1 ⊢
        simpa using h1

theorem payloadBytes_append (a b : List (List Byte × WriteResult)) :
    payloadBytes (a ++ b) = payloadBytes a ++ payloadBytes b := by
  simp [payloadBytes]

theorem acceptedBytes_append (a b : List (List Byte × WriteResult)) :
    acceptedBytes (a ++ b) = acceptedBytes a ++ acceptedBytes b := by
  simp [acceptedBytes]

theorem payloadBytes_chunks (chunks : List PumpInput) :
    payloadBytes (chunks.map (fun i => (i.data, i.write))) = (chunks.map (fun i => i.data)).flatten := by
  simp [payloadBytes, Function.comp_def]

theorem acceptedBytes_chunks (chunks : List PumpInput)
    (h : ∀ i ∈ chunks, i.write.n = i.data.length) :
    acceptedBytes (chunks.map (fun i => (i.data, i.write))) =
      (chunks.map (fun i => i.data)).flatten := by
  induction chunks with
  | nil => simp [acceptedBytes]
  | cons c cs ih =>
    have hc := h c (List.mem_cons_self _ _)
    have ih2 := ih (fun i hi => h i (List.mem_cons_of_mem _ hi))
    simp only [acceptedBytes, List.map_cons, List.flatten_cons] at ih2 ⊢
    rw [ih2, hc, List.take_length]

/-- C6 (byte-pump transparency). For each direction of a relay whose goroutine
is running with its 8192-byte buffer: if, among any interleaving of the two
goroutines, the iterations of that direction read the chunks `c1 .. ck` (each
at most 8192 bytes) without error, every write returning without error, and
then meet a read error or EOF, the `Write` calls on the destination are
exactly one per chunk, in order, so the bytes passed are `c1 ++ ... ++ ck`
(and so are the bytes reported written when every write reports the full
count), and the goroutine has ended. -/
theorem byte_pump_transparency (r : TCPRelay) (events : List PumpEvent)
    (chunks : List PumpInput) (last : PumpInput)
    (hgood : ∀ i ∈ chunks, i.readErr = false ∧ i.data.length ≤ bufferSize ∧ i.write.err = false)
    (hlast : last.readErr = true) :
    (r.clientToServer = true → r.upBuffer.length = bufferSize →
      upInputs events = chunks ++ [last] →
      (relayRun r events).toServer = r.toServer ++ chunks.map (fun i => (i.data, i.write)) ∧
      payloadBytes (relayRun r events).toServer =
        payloadBytes r.toServer ++ (chunks.map (fun i => i.data)).flatten ∧
      ((∀ i ∈ chunks, i.write.n = i.data.length) →
        acceptedBytes (relayRun r events).toServer =
          acceptedBytes r.toServer ++ (chunks.map (fun i => i.data)).flatten) ∧
      (relayRun r events).clientToServer = false) ∧
    (r.serverToClient = true → r.downBuffer.length = bufferSize →
      downInputs events = chunks ++ [last] →
      (relayRun r events).toClient = r.toClient ++ chunks.map (fun i => (i.data, i.write)) ∧
      payloadBytes (relayRun r events).toClient =
        payloadBytes r.toClient ++ (chunks.map (fun i => i.data)).flatten ∧
      ((∀ i ∈ chunks, i.write.n = i.data.length) →
        acceptedBytes (relayRun r events).toClient =
          acceptedBytes r.toClient ++ (chunks.map (fun i => i.data)).flatten) ∧
      (relayRun r events).serverToClient = false) := by
  constructor
  · intro hrun hbuf hup
    have h := relayRun_up_copy events r chunks last hrun hbuf hup hgood hlast
    refine ⟨h.1, ?_, ?_, h.2⟩
    · rw [h.1, payloadBytes_append, payloadBytes_chunks]
    · intro hn
      rw [h.1, acceptedBytes_append, acceptedBytes_chunks chunks hn]
  · intro hrun hbuf hdown
    have h := relayRun_down_copy events r chunks last hrun hbuf hdown hgood hlast
    refine ⟨h.1, ?_, ?_, h.2.1⟩
    · rw [h.1, payloadBytes_append, payloadBytes_chunks]
    · intro hn
      rw [h.1, acceptedBytes_append, acceptedBytes_chunks chunks hn]

/-- Witness of C6: the client sends `[73, 78]` and `[86]`, then closes. -/
theorem byte_pump_transparency_witness :
    (relayRun (newRelay 1 2) exampleTransfer).toServer =
      [([73, 78], { n := 2, err := false }), ([86], { n := 1, err := false })] :=
  ((byte_pump_transparency (newRelay 1 2) exampleTransfer
    [cleanCopy [73, 78], cleanCopy [86]] endOfStream (by decide) rfl).1
      rfl makeBuffer_length rfl).1

theorem serverToClientBody_cleanCopy (r : TCPRelay) (data : List Byte)
    (hrun : r.serverToClient = true) :
    (serverToClientBody r (cleanCopy data)).serverToClient = true ∧
    (serverToClientBody r (cleanCopy data)).closed = r.closed := by
  rw [serverToClientBody_running r _ hrun]
  simp [cleanCopy, hrun]

theorem relayRun_cleanCopies (later : List (List Byte)) (r : TCPRelay)
    (hrun : r.serverToClient = true) :
    (relayRun r (later.map (fun d => PumpEvent.down (cleanCopy d)))).serverToClient = true ∧
    (relayRun r (later.map (fun d => PumpEvent.down (cleanCopy d)))).closed = r.closed ∧
    (relayRun r (later.map (fun d => PumpEvent.down (cleanCopy d)))).clientToServer =
      r.clientToServer := by
  induction later generalizing r with
  | nil => exact ⟨hrun, rfl, rfl⟩
  | cons d rest ih =>
    simp only [List.map_cons, relayRun_cons, relayStep]
    have h1 := serverToClientBody_cleanCopy r d hrun
    have h2 := serverToClientBody_frame r (cleanCopy d)
    have h3 := ih (serverToClientBody r (cleanCopy d)) h1.1
    exact ⟨h3.1, h3.2.1.trans h1.2, h3.2.2.trans h2.1⟩

/-- C5, evaluated where the code departs from it. For any accepted connection
with a dialed upstream connection: when the client-to-server goroutine meets
EOF or a read error it ends, and `Close` has been called on neither
connection; this stays so however many chunks the server-to-client goroutine
goes on copying. Only the end of the server-to-client goroutine closes the two
connections (last component). -/
theorem clientToServer_exit_closes_nothing (clientConn serverConn : Conn)
    (later : List (List Byte)) :
    (relayStep (newRelay clientConn serverConn) (PumpEvent.up endOfStream)).clientToServer = false ∧
    (relayStep (newRelay clientConn serverConn) (PumpEvent.up endOfStream)).closed = [] ∧
    (relayRun (newRelay clientConn serverConn)
      (PumpEvent.up endOfStream :: later.map (fun d => PumpEvent.down (cleanCopy d)))).closed = [] ∧
    (relayRun (newRelay clientConn serverConn)
      (PumpEvent.up endOfStream ::
        later.map (fun d => PumpEvent.down (cleanCopy d)))).clientToServer = false ∧
    (relayStep (newRelay clientConn serverConn) (PumpEvent.down endOfStream)).closed =
      [serverConn, clientConn] := by
  have hup : clientToServerBody (newRelay clientConn serverConn) endOfStream =
      { newRelay clientConn serverConn with
        upBuffer := (readInto makeBuffer []).1, clientToServer := false } := by
    rw [clientToServerBody_running _ _ rfl]; rfl
  have hdown := serverToClientBody_running (newRelay clientConn serverConn) endOfStream rfl
  have hl := relayRun_cleanCopies later
    (clientToServerBody (newRelay clientConn serverConn) endOfStream) (by rw [hup]; rfl)
  simp only [relayRun_cons, relayStep]
  refine ⟨by rw [hup], by rw [hup]; rfl, ?_, ?_, ?_⟩
  · rw [hl.2.1, hup]; rfl
  · rw [hl.2.2, hup]
  · rw [hdown]; rfl





/-! ## Two first datagrams of one client -/

section
variable (addrString : UDPAddr → String)

end

end SipProxy
